import Mathlib

/-!
Verification development for the fintrace relationship engine.

The Go sources are embedded shallowly:

* pure helpers (`strings` operations restricted to the character classes the
  inputs use, SHA-256 hashing, attribute normalization) become Lean functions;
* the graph store is modelled as an explicit `GraphState`; each Cypher
  statement issued by the repository is translated clause by clause into a
  state transformer following openCypher semantics (`MERGE` = find-or-create
  on the pattern key, `SET n += m` = property-map overwrite, an unmatched
  `MATCH` produces zero rows and hence no writes and no error, `UNWIND` of an
  empty list eliminates the row);
* `time.Time` values are modelled by the observations the engine makes of
  them (`IsZero`, and their `DateOnly` / RFC3339 / RFC3339Nano renderings);
* the worker pool of `BulkIngestor.run` is modelled by its sequential
  reference interleaving: every index is dispatched exactly once and the
  per-item errors are collected in order into the buffered error channel,
  which is exact whenever no cancellation occurs; the error-draining loop of
  `run` is translated verbatim.
-/

namespace Fintrace

/-! ## Go string helpers (`strings`, `regexp`), ASCII-faithful fragment -/

/-- `unicode.IsSpace` on the code points the engine manipulates
(the ASCII whitespace characters plus NEL and NBSP). -/
def isGoSpace (c : Char) : Bool :=
  c = ' ' || c = '\t' || c = '\n' || c = (Char.ofNat 11) || c = (Char.ofNat 12) ||
    c = '\r' || c = (Char.ofNat 133) || c = (Char.ofNat 160)

/-- The RE2 character class `\s` used by `whitespaceRegex` (`[\t\n\f\r ]`). -/
def isRegexpSpace (c : Char) : Bool :=
  c = '\t' || c = '\n' || c = (Char.ofNat 12) || c = '\r' || c = ' '

/-- `strings.ToLower`, byte-for-byte on ASCII (identity elsewhere,
matching Go's simple case folding on the ASCII range). -/
def goToLowerChar (c : Char) : Char :=
  if 'A' ≤ c ∧ c ≤ 'Z' then Char.ofNat (c.toNat + 32) else c

/-- `strings.ToLower` applied to a whole string. -/
def goToLower (s : String) : String :=
  ⟨s.data.map goToLowerChar⟩

/-- `strings.ToUpper`, byte-for-byte on ASCII. -/
def goToUpperChar (c : Char) : Char :=
  if 'a' ≤ c ∧ c ≤ 'z' then Char.ofNat (c.toNat - 32) else c

/-- `strings.TrimSpace`: drop leading and trailing whitespace. -/
def trimSpace (s : String) : String :=
  ⟨((s.data.dropWhile isGoSpace).reverse.dropWhile isGoSpace).reverse⟩

/-- Worker for `collapseWhitespace`: the flag records whether the previous
character belonged to a whitespace run (whose single replacement blank has
already been emitted). -/
def collapseWhitespaceAux : Bool → List Char → List Char
  | _, [] => []
  | inRun, c :: rest =>
    if isRegexpSpace c then
      if inRun then collapseWhitespaceAux true rest
      else ' ' :: collapseWhitespaceAux true rest
    else c :: collapseWhitespaceAux false rest

/-- `whitespaceRegex.ReplaceAllString(value, " ")`: collapse every maximal
run of `\s` characters to a single blank. -/
def collapseWhitespace (l : List Char) : List Char :=
  collapseWhitespaceAux false l

/-- `sanitizeString` from `attribute_generator.go`: collapse whitespace runs
and trim the result. -/
def sanitizeString (value : String) : String :=
  trimSpace ⟨collapseWhitespace value.data⟩

/-- `nonDigitRegex.ReplaceAllString(phone, "")`: keep only decimal digits. -/
def stripNonDigits (s : String) : String :=
  ⟨s.data.filter Char.isDigit⟩

/-- `strings.Join(elems, sep)`. -/
def goJoin (elems : List String) (sep : String) : String :=
  match elems with
  | [] => ""
  | [x] => x
  | x :: rest => x ++ sep ++ goJoin rest sep

/-- `strings.Trim(s, cutset)` for a one-character cutset: drop that
character from both ends. -/
def goTrimChar (s : String) (c : Char) : String :=
  ⟨((s.data.dropWhile (· = c)).reverse.dropWhile (· = c)).reverse⟩

/-! ## SHA-256 (`crypto/sha256`), hex encoding (`encoding/hex`) -/

/-- Truncation to a 32-bit word. -/
def w32 (n : Nat) : Nat := n % 4294967296

/-- 32-bit right rotation. -/
def rotr32 (n x : Nat) : Nat :=
  w32 ((x >>> n) ||| (x <<< (32 - n)))

/-- The 64 SHA-256 round constants (fractional cube roots of the first
64 primes). -/
def sha256K : List Nat :=
  [1116352408, 1899447441, 3049323471, 3921009573, 961987163, 1508970993,
   2453635748, 2870763221, 3624381080, 310598401, 607225278, 1426881987,
   1925078388, 2162078206, 2614888103, 3248222580, 3835390401, 4022224774,
   264347078, 604807628, 770255983, 1249150122, 1555081692, 1996064986,
   2554220882, 2821834349, 2952996808, 3210313671, 3336571891, 3584528711,
   113926993, 338241895, 666307205, 773529912, 1294757372, 1396182291,
   1695183700, 1986661051, 2177026350, 2456956037, 2730485921, 2820302411,
   3259730800, 3345764771, 3516065817, 3600352804, 4094571909, 275423344,
   430227734, 506948616, 659060556, 883997877, 958139571, 1322822218,
   1537002063, 1747873779, 1955562222, 2024104815, 2227730452, 2361852424,
   2428436474, 2756734187, 3204031479, 3329325298]

/-- SHA-256 working state (eight 32-bit words). -/
structure Sha256State where
  h0 : Nat
  h1 : Nat
  h2 : Nat
  h3 : Nat
  h4 : Nat
  h5 : Nat
  h6 : Nat
  h7 : Nat
deriving Repr, DecidableEq

/-- Initial hash value (fractional square roots of the first 8 primes). -/
def sha256Init : Sha256State :=
  ⟨1779033703, 3144134277, 1013904242, 2773480762,
   1359893119, 2600822924, 528734635, 1541459225⟩

/-- Message-schedule extension: word `i` from words `i-2`, `i-7`, `i-15`, `i-16`. -/
def sha256NextWord (ws : List Nat) : Nat :=
  let i := ws.length
  let s0 := (rotr32 7 (ws.getD (i - 15) 0)) ^^^ (rotr32 18 (ws.getD (i - 15) 0)) ^^^
    ((ws.getD (i - 15) 0) >>> 3)
  let s1 := (rotr32 17 (ws.getD (i - 2) 0)) ^^^ (rotr32 19 (ws.getD (i - 2) 0)) ^^^
    ((ws.getD (i - 2) 0) >>> 10)
  w32 (ws.getD (i - 16) 0 + s0 + ws.getD (i - 7) 0 + s1)

/-- Extend the 16 block words to the 64 schedule words. -/
def sha256Extend (fuel : Nat) (ws : List Nat) : List Nat :=
  match fuel with
  | 0 => ws
  | n + 1 => sha256Extend n (ws ++ [sha256NextWord ws])

/-- One compression round. -/
def sha256Round (st : Sha256State) (kw : Nat × Nat) : Sha256State :=
  let e := st.h4
  let a := st.h0
  let s1 := (rotr32 6 e) ^^^ (rotr32 11 e) ^^^ (rotr32 25 e)
  let ch := (e.land st.h5) ^^^ ((e.xor 4294967295).land st.h6)
  let t1 := w32 (st.h7 + s1 + ch + kw.1 + kw.2)
  let s0 := (rotr32 2 a) ^^^ (rotr32 13 a) ^^^ (rotr32 22 a)
  let maj := (a.land st.h1) ^^^ (a.land st.h2) ^^^ (st.h1.land st.h2)
  let t2 := w32 (s0 + maj)
  ⟨w32 (t1 + t2), a, st.h1, st.h2, w32 (st.h3 + t1), e, st.h5, st.h6⟩

/-- Compress one 16-word block into the running state. -/
def sha256Block (st : Sha256State) (block : List Nat) : Sha256State :=
  let ws := sha256Extend 48 block
  let r := (sha256K.zip ws).foldl sha256Round st
  ⟨w32 (st.h0 + r.h0), w32 (st.h1 + r.h1), w32 (st.h2 + r.h2), w32 (st.h3 + r.h3),
   w32 (st.h4 + r.h4), w32 (st.h5 + r.h5), w32 (st.h6 + r.h6), w32 (st.h7 + r.h7)⟩

/-- Big-endian packing of bytes into 32-bit words. -/
def bytesToWords : List Nat → List Nat
  | b0 :: b1 :: b2 :: b3 :: rest => (b0 * 16777216 + b1 * 65536 + b2 * 256 + b3) :: bytesToWords rest
  | _ => []

/-- Split a word list into 16-word blocks (padded input has a multiple of
16 words; a shorter tail, impossible after padding, is passed through). -/
def wordBlocks : List Nat → List (List Nat)
  | w0 :: w1 :: w2 :: w3 :: w4 :: w5 :: w6 :: w7 ::
      w8 :: w9 :: w10 :: w11 :: w12 :: w13 :: w14 :: w15 :: rest =>
    [w0, w1, w2, w3, w4, w5, w6, w7, w8, w9, w10, w11, w12, w13, w14, w15] ::
      wordBlocks rest
  | [] => []
  | other => [other]

/-- Big-endian byte rendering of an 8-byte length field. -/
def lenBytes64 (n : Nat) : List Nat :=
  [n >>> 56 % 256, n >>> 48 % 256, n >>> 40 % 256, n >>> 32 % 256,
   n >>> 24 % 256, n >>> 16 % 256, n >>> 8 % 256, n % 256]

/-- SHA-256 padding: `0x80`, zeros to 56 mod 64, then the bit length. -/
def sha256Pad (msg : List Nat) : List Nat :=
  let zeroCount := (64 + 56 - (msg.length + 1) % 64) % 64
  msg ++ [128] ++ List.replicate zeroCount 0 ++ lenBytes64 (msg.length * 8)

/-- Big-endian bytes of one hash word. -/
def wordBytes (w : Nat) : List Nat :=
  [w >>> 24 % 256, w >>> 16 % 256, w >>> 8 % 256, w % 256]

/-- The SHA-256 digest of a byte string, as 32 bytes. -/
def sha256Bytes (msg : List Nat) : List Nat :=
  let st := (wordBlocks (bytesToWords (sha256Pad msg))).foldl sha256Block sha256Init
  wordBytes st.h0 ++ wordBytes st.h1 ++ wordBytes st.h2 ++ wordBytes st.h3 ++
    wordBytes st.h4 ++ wordBytes st.h5 ++ wordBytes st.h6 ++ wordBytes st.h7

/-- Lowercase hex digit. -/
def hexDigit (n : Nat) : Char :=
  "0123456789abcdef".data.getD n '0'

/-- `hex.EncodeToString` of a byte list. -/
def hexEncode (bs : List Nat) : String :=
  ⟨bs.flatMap (fun b => [hexDigit (b / 16), hexDigit (b % 256 % 16)])⟩

/-- UTF-8 encoding of one character (`[]byte(s)` in Go). -/
def utf8EncodeChar (c : Char) : List Nat :=
  let n := c.toNat
  if n < 128 then [n]
  else if n < 2048 then [192 + n / 64, 128 + n % 64]
  else if n < 65536 then [224 + n / 4096, 128 + n / 64 % 64, 128 + n % 64]
  else [240 + n / 262144, 128 + n / 4096 % 64, 128 + n / 64 % 64, 128 + n % 64]

/-- The UTF-8 bytes of a string. -/
def utf8Bytes (s : String) : List Nat :=
  s.data.flatMap utf8EncodeChar

/-- `hashValue` from `attribute_generator.go`: hex-encoded SHA-256 of the
canonical value. -/
def hashValue (value : String) : String :=
  hexEncode (sha256Bytes (utf8Bytes value))

/-! ## `time.Time` model

A `time.Time` value is modelled by the observations the engine makes of it:
whether it is the zero time, and its `DateOnly`, `RFC3339` and `RFC3339Nano`
renderings after `UTC()` (so `UTC()` itself is the identity here); the
calendar arithmetic of the Go standard library stays external. -/
structure GoTime where
  isZero : Bool
  dateOnly : String
  rfc3339 : String
  rfc3339Nano : String
deriving DecidableEq, Repr

/-- `formatTime` from the repository: empty string for the zero time,
otherwise the RFC3339Nano rendering in UTC. -/
def formatTime (t : GoTime) : String :=
  if t.isZero then "" else t.rfc3339Nano

/-- `formatTimePtr`: empty string for `nil` or the zero time. -/
def formatTimePtr (t : Option GoTime) : String :=
  match t with
  | none => ""
  | some t => formatTime t

/-! ## Domain model (`internal/domain`) -/

/-- `domain.Address`. -/
structure Address where
  line1 : String
  line2 : String
  city : String
  state : String
  postalCode : String
  country : String
deriving DecidableEq, Repr

/-- `domain.Attribute`; the `float64` confidence score is modelled in `ℚ`
(the engine only ever copies scores and compares them with zero). -/
structure Attribute where
  type : String
  value : String
  rawValue : String
  confidenceScore : ℚ
deriving DecidableEq, Repr

/-- `domain.PaymentMethod`. -/
structure PaymentMethod where
  id : String
  methodType : String
  provider : String
  masked : String
  fingerprint : String
  firstUsedAt : Option GoTime
  lastUsedAt : Option GoTime
deriving DecidableEq, Repr

/-- `domain.User`. -/
structure User where
  id : String
  fullName : String
  email : String
  phone : String
  address : Address
  dateOfBirth : Option GoTime
  kycStatus : String
  riskScore : ℚ
  attributes : List Attribute
  paymentMethods : List PaymentMethod
  createdAt : GoTime
  updatedAt : GoTime
deriving DecidableEq, Repr

/-- `domain.Transaction`; the free-form metadata map is modelled as its
key/value pairs (only its JSON serialization ever reaches the store). -/
structure Transaction where
  id : String
  senderUserID : String
  receiverUserID : String
  amount : ℚ
  currency : String
  type : String
  status : String
  channel : String
  ipAddress : String
  deviceID : String
  paymentMethodID : String
  timestamp : GoTime
  metadata : List (String × String)
  createdAt : GoTime
  updatedAt : GoTime
deriving DecidableEq, Repr

/-! ## Service input DTOs (`internal/service/models.go`) -/

/-- `service.AddressInput`. -/
structure AddressInput where
  line1 : String
  line2 : String
  city : String
  state : String
  postalCode : String
  country : String
deriving DecidableEq, Repr

/-- `service.PaymentMethodInput`. -/
structure PaymentMethodInput where
  id : String
  methodType : String
  provider : String
  masked : String
  fingerprint : String
  firstUsedAt : Option GoTime
  lastUsedAt : Option GoTime
deriving DecidableEq, Repr

/-- `service.AttributeInput`. -/
structure AttributeInput where
  type : String
  value : String
  rawValue : String
  confidenceScore : ℚ
deriving DecidableEq, Repr

/-- `service.UserInput`. -/
structure UserInput where
  id : String
  fullName : String
  email : String
  phone : String
  address : AddressInput
  dateOfBirth : Option GoTime
  kycStatus : String
  riskScore : ℚ
  paymentMethods : List PaymentMethodInput
  attributes : List AttributeInput
  createdAt : Option GoTime
  updatedAt : Option GoTime
deriving DecidableEq, Repr

/-- `service.TransactionInput`. -/
structure TransactionInput where
  id : String
  senderUserID : String
  receiverUserID : String
  amount : ℚ
  currency : String
  type : String
  status : String
  channel : String
  ipAddress : String
  deviceID : String
  paymentMethodID : String
  timestamp : GoTime
  metadata : List (String × String)
  createdAt : Option GoTime
  updatedAt : Option GoTime
deriving DecidableEq, Repr

/-- `AddressInput.ToDomainAddress`. -/
def AddressInput.toDomainAddress (a : AddressInput) : Address :=
  ⟨a.line1, a.line2, a.city, a.state, a.postalCode, a.country⟩

/-! ## Attribute normalization (`internal/service/attribute_generator.go`) -/

def AttributeTypeEmail : String := "EMAIL"
def AttributeTypePhone : String := "PHONE"
def AttributeTypeAddress : String := "ADDRESS"
def AttributeTypeIPAddress : String := "IP"
def AttributeTypeDevice : String := "DEVICE"
def AttributeTypePayment : String := "PAYMENT_METHOD"
def defaultConfidenceScore : ℚ := 1

/-- `normalizeEmail`: lowercase then trim. -/
def normalizeEmail (email : String) : String :=
  trimSpace (goToLower email)

/-- `strings.HasPrefix`, character-structurally. -/
def goStartsWith (s pre : String) : Bool :=
  pre.data.isPrefixOf s.data

/-- `normalizePhone`: trim, strip non-digits, return empty for no digits,
drop a leading `"00"`, then ensure a leading `"+"`. -/
def normalizePhone (phone : String) : String :=
  let p := stripNonDigits (trimSpace phone)
  if p = "" then ""
  else
    let p := if goStartsWith p "00" then ⟨p.data.drop 2⟩ else p
    if goStartsWith p "+" then p else "+" ++ p

/-- The six lowercase-trimmed components of `normalizeAddress`, in field
order. -/
def normalizedComponents (addr : AddressInput) : List String :=
  [goToLower (trimSpace addr.line1),
   goToLower (trimSpace addr.line2),
   goToLower (trimSpace addr.city),
   goToLower (trimSpace addr.state),
   goToLower (trimSpace addr.postalCode),
   goToLower (trimSpace addr.country)]

/-- `normalizeAddress`: lowercase-trimmed components joined with `"|"`. -/
def normalizeAddress (addr : AddressInput) : String :=
  goJoin (normalizedComponents addr) "|"

/-- The payment-method attribute loop of `FromUser`: deduplicate by
fingerprint (falling back to the raw id) and emit one attribute each. -/
def userPaymentAttributes : List PaymentMethodInput → List String → List Attribute
  | [], _ => []
  | pm :: rest, seen =>
    let identifier :=
      if trimSpace pm.fingerprint = "" then trimSpace pm.id else trimSpace pm.fingerprint
    if identifier = "" then userPaymentAttributes rest seen
    else if identifier ∈ seen then userPaymentAttributes rest seen
    else
      ⟨AttributeTypePayment, hashValue identifier, identifier, 0.95⟩ ::
        userPaymentAttributes rest (identifier :: seen)

/-- `DefaultAttributeGenerator.FromUser`. -/
def FromUser (input : UserInput) : List Attribute :=
  (if normalizeEmail input.email ≠ "" then
    [⟨AttributeTypeEmail, hashValue (normalizeEmail input.email),
      normalizeEmail input.email, defaultConfidenceScore⟩]
   else []) ++
  (if normalizePhone input.phone ≠ "" then
    [⟨AttributeTypePhone, hashValue (normalizePhone input.phone),
      normalizePhone input.phone, defaultConfidenceScore⟩]
   else []) ++
  (if goTrimChar (normalizeAddress input.address) '|' ≠ "" then
    [⟨AttributeTypeAddress, hashValue (normalizeAddress input.address),
      normalizeAddress input.address, 0.9⟩]
   else []) ++
  userPaymentAttributes input.paymentMethods []

/-- `DefaultAttributeGenerator.FromTransaction`. -/
def FromTransaction (input : TransactionInput) : List Attribute :=
  (if trimSpace input.ipAddress ≠ "" then
    [⟨AttributeTypeIPAddress, hashValue (trimSpace input.ipAddress),
      trimSpace input.ipAddress, 0.85⟩]
   else []) ++
  (if trimSpace input.deviceID ≠ "" then
    [⟨AttributeTypeDevice, hashValue (trimSpace input.deviceID),
      trimSpace input.deviceID, 0.9⟩]
   else []) ++
  (if trimSpace input.paymentMethodID ≠ "" then
    [⟨AttributeTypePayment, hashValue (trimSpace input.paymentMethodID),
      trimSpace input.paymentMethodID, 0.9⟩]
   else []) ++
  [⟨"TX_DAY_BUCKET", hashValue input.timestamp.dateOnly, input.timestamp.rfc3339, 0.5⟩]

/-- `convertCustomAttributes`: keep caller attributes with non-empty type
and value; a confidence score of exactly zero defaults to `1.0`. -/
def convertCustomAttributes : List AttributeInput → List Attribute
  | [] => []
  | attr :: rest =>
    if attr.type = "" ∨ attr.value = "" then convertCustomAttributes rest
    else
      let conf := if attr.confidenceScore = 0 then defaultConfidenceScore
        else attr.confidenceScore
      ⟨attr.type, attr.value, attr.rawValue, conf⟩ :: convertCustomAttributes rest

/-- The `domain.User` value that `RelationshipService.UpsertUser` hands to
the repository (the body after the id validation), with `now = s.nowFn()`. -/
def buildUser (input : UserInput) (now : GoTime) : User :=
  let createdAt := match input.createdAt with | some t => t | none => now
  let updatedAt := match input.updatedAt with | some t => t | none => now
  let attrs := FromUser input ++
    (if input.attributes.length > 0 then convertCustomAttributes input.attributes else [])
  { id := input.id
    fullName := sanitizeString input.fullName
    email := normalizeEmail input.email
    phone := normalizePhone input.phone
    address := input.address.toDomainAddress
    dateOfBirth := input.dateOfBirth
    kycStatus := input.kycStatus
    riskScore := input.riskScore
    attributes := attrs
    paymentMethods := input.paymentMethods.map (fun pm =>
      ⟨pm.id, pm.methodType, pm.provider, pm.masked, pm.fingerprint,
        pm.firstUsedAt, pm.lastUsedAt⟩)
    createdAt := createdAt
    updatedAt := updatedAt }

/-- The `domain.Transaction` value that `RelationshipService.UpsertTransaction`
hands to the repository (the body after the id validations). -/
def buildTransaction (input : TransactionInput) (now : GoTime) : Transaction :=
  let createdAt := match input.createdAt with | some t => t | none => now
  let updatedAt := match input.updatedAt with | some t => t | none => now
  { id := input.id
    senderUserID := input.senderUserID
    receiverUserID := input.receiverUserID
    amount := input.amount
    currency := input.currency
    type := input.type
    status := input.status
    channel := input.channel
    ipAddress := input.ipAddress
    deviceID := input.deviceID
    paymentMethodID := input.paymentMethodID
    timestamp := input.timestamp
    metadata := input.metadata
    createdAt := createdAt
    updatedAt := updatedAt }

/-! ## Graph store model

The external graph store is modelled as an explicit state: one keyed node
list per label and one edge list.  `MERGE` finds or creates by pattern key,
`SET n += m` overwrites properties; Go's unordered property maps are
modelled as association lists in program order (the engine never depends on
map order). -/

/-- A reference to a node, carrying its label and business key
(`Attribute` nodes are keyed by the `(attributeType, value)` pair). -/
inductive NodeRef
  | user (id : String)
  | tx (id : String)
  | attr (type value : String)
  | pm (id : String)
deriving DecidableEq, Repr

/-- A property value (the engine stores only strings and numbers). -/
inductive PropVal
  | str (s : String)
  | num (q : ℚ)
deriving DecidableEq, Repr

/-- A property map, as an association list. -/
abbrev PropMap := List (String × PropVal)

/-- Overwrite-or-append one property (in place, preserving order). -/
def setProp (m : PropMap) (k : String) (v : PropVal) : PropMap :=
  match m with
  | [] => [(k, v)]
  | (k', v') :: rest => if k' = k then (k, v) :: rest else (k', v') :: setProp rest k v

/-- `SET n += m`: overwrite the target map with every entry of `p`. -/
def mergeProps (m : PropMap) (p : PropMap) : PropMap :=
  p.foldl (fun acc kv => setProp acc kv.1 kv.2) m

/-- A graph relationship; `key` holds the properties appearing inside the
`MERGE` pattern (they identify the edge), `props` the ones assigned by
`SET` afterwards. -/
structure Edge where
  src : NodeRef
  rel : String
  key : List (String × String)
  tgt : NodeRef
  props : PropMap
deriving DecidableEq, Repr

/-- The merge identity of an edge. -/
structure EdgeKey where
  src : NodeRef
  rel : String
  key : List (String × String)
  tgt : NodeRef
deriving DecidableEq, Repr

/-- The merge identity of an edge. -/
def Edge.idOf (e : Edge) : EdgeKey :=
  ⟨e.src, e.rel, e.key, e.tgt⟩

/-- The whole store state. -/
structure GraphState where
  userNodes : List (String × PropMap)
  txNodes : List (String × PropMap)
  attrNodes : List ((String × String) × PropMap)
  pmNodes : List (String × PropMap)
  edges : List Edge
deriving DecidableEq, Repr

/-- Does a keyed node list contain this key? -/
def hasKey {K : Type} [DecidableEq K] (l : List (K × PropMap)) (k : K) : Bool :=
  l.any (·.1 = k)

/-- `MERGE` on a node: find by key or append a fresh node. -/
def mergeNode {K : Type} [DecidableEq K] (l : List (K × PropMap)) (k : K) :
    List (K × PropMap) :=
  if hasKey l k then l else l ++ [(k, [])]

/-- `SET` on a node found by key. -/
def setNodeProps {K : Type} [DecidableEq K] (l : List (K × PropMap)) (k : K)
    (p : PropMap) : List (K × PropMap) :=
  l.map (fun kv => if kv.1 = k then (kv.1, mergeProps kv.2 p) else kv)

/-- The stored properties of a keyed node (empty when absent, matching the
null-defaulting decode helpers). -/
def nodeProps {K : Type} [DecidableEq K] (l : List (K × PropMap)) (k : K) : PropMap :=
  ((l.find? (·.1 = k)).map (·.2)).getD []

/-- `MERGE` on an edge followed by `SET`: update the matched edge's
properties, or append a fresh edge carrying them. -/
def mergeEdge (edges : List Edge) (k : EdgeKey) (setPs : PropMap) : List Edge :=
  if edges.any (fun e => e.idOf = k) then
    edges.map (fun e => if e.idOf = k then { e with props := mergeProps e.props setPs } else e)
  else edges ++ [⟨k.src, k.rel, k.key, k.tgt, mergeProps [] setPs⟩]

/-- First-occurrence deduplication (`DISTINCT`). -/
def dedupAux {α : Type} [DecidableEq α] : List α → List α → List α
  | [], _ => []
  | x :: rest, seen =>
    if x ∈ seen then dedupAux rest seen else x :: dedupAux rest (x :: seen)

/-- First-occurrence deduplication (`DISTINCT`). -/
def dedup {α : Type} [DecidableEq α] (l : List α) : List α :=
  dedupAux l []

/-- String property read with the `toString` default (`""`). -/
def lookupStr (m : PropMap) (k : String) : String :=
  match m.find? (·.1 = k) with
  | some (_, .str s) => s
  | _ => ""

/-- Numeric property read with the `toFloat64` default (`0`). -/
def lookupNum (m : PropMap) (k : String) : ℚ :=
  match m.find? (·.1 = k) with
  | some (_, .num q) => q
  | _ => 0

/-- Read a merge-pattern property of an edge. -/
def lookupKey (k : List (String × String)) (name : String) : String :=
  (((k.find? (·.1 = name)).map (·.2)).getD "")

/-- `toTimePtr` on a stored timestamp text: `nil` for the empty string,
otherwise the parsed instant (modelled by its text). -/
def toTimePtrStr (s : String) : Option String :=
  if s = "" then none else some s

/-! ## Repository parameter builders (`internal/repository`) -/

/-- One entry of the `$attributes` parameter (`attributeParams`): the Go
code sends the confidence score twice, under `confidence` and `score`. -/
structure AttrParam where
  type : String
  value : String
  rawValue : String
  confidence : ℚ
  score : ℚ
deriving DecidableEq, Repr

/-- One entry of the `$paymentMethods` parameter (`paymentMethodParams`). -/
structure PmParam where
  id : String
  props : PropMap
  firstUsedAt : String
  lastUsedAt : String
deriving DecidableEq, Repr

/-- `attributeParams`. -/
def attributeParams (attrs : List Attribute) : List AttrParam :=
  attrs.map (fun a => ⟨a.type, a.value, a.rawValue, a.confidenceScore, a.confidenceScore⟩)

/-- `paymentMethodParams`. -/
def paymentMethodParams (methods : List PaymentMethod) : List PmParam :=
  methods.map (fun pm =>
    ⟨pm.id,
     [("methodType", .str pm.methodType), ("provider", .str pm.provider),
      ("masked", .str pm.masked), ("fingerprint", .str pm.fingerprint)],
     formatTimePtr pm.firstUsedAt, formatTimePtr pm.lastUsedAt⟩)

/-- `userProperties`. -/
def userProperties (u : User) : PropMap :=
  [("fullName", .str u.fullName), ("email", .str u.email), ("phone", .str u.phone),
   ("kycStatus", .str u.kycStatus), ("riskScore", .num u.riskScore),
   ("updatedAt", .str (formatTime u.updatedAt))] ++
  (if ¬u.createdAt.isZero then [("createdAt", .str (formatTime u.createdAt))] else []) ++
  (match u.dateOfBirth with
   | some dob => if ¬dob.isZero then [("dateOfBirth", .str (formatTime dob))] else []
   | none => []) ++
  [("addressLine1", .str u.address.line1), ("addressLine2", .str u.address.line2),
   ("addressCity", .str u.address.city), ("addressState", .str u.address.state),
   ("addressPostalCode", .str u.address.postalCode),
   ("addressCountry", .str u.address.country)]

/-- Lexicographic comparison on character lists (byte order on ASCII). -/
def charListLe : List Char → List Char → Bool
  | [], _ => true
  | _ :: _, [] => false
  | a :: as, b :: bs =>
    if a.toNat < b.toNat then true
    else if b.toNat < a.toNat then false
    else charListLe as bs

/-- Key-ordered insertion, for the sorted-key serialization of
`json.Marshal` on maps. -/
def insertByKey (kv : String × String) : List (String × String) → List (String × String)
  | [] => [kv]
  | kv' :: rest =>
    if charListLe kv.1.data kv'.1.data then kv :: kv' :: rest
    else kv' :: insertByKey kv rest

/-- `serializeMetadata` (`json.Marshal` of a string-valued map: keys sorted,
entries quoted; escaping stays external, the engine never inspects the
result). -/
def serializeMetadata (metadata : List (String × String)) : String :=
  let sorted := metadata.foldr insertByKey []
  "\x7b" ++
    goJoin (sorted.map (fun kv => "\"" ++ kv.1 ++ "\":\"" ++ kv.2 ++ "\"")) "," ++
    "\x7d"

/-- `transactionProperties`. -/
def transactionProperties (tx : Transaction) : PropMap :=
  [("amount", .num tx.amount), ("currency", .str tx.currency),
   ("type", .str tx.type), ("status", .str tx.status), ("channel", .str tx.channel),
   ("ipAddress", .str tx.ipAddress), ("deviceId", .str tx.deviceID),
   ("paymentMethodId", .str tx.paymentMethodID),
   ("timestamp", .str (formatTime tx.timestamp)),
   ("updatedAt", .str (formatTime tx.updatedAt))] ++
  (if tx.metadata.length > 0 then [("metadataJson", .str (serializeMetadata tx.metadata))]
   else []) ++
  (if ¬tx.createdAt.isZero then [("createdAt", .str (formatTime tx.createdAt))] else [])

/-- The parameter map of `upsertTransactionCypher`. -/
structure TxParams where
  transactionId : String
  senderId : String
  receiverId : String
  amount : ℚ
  currency : String
  timestamp : String
  props : PropMap
  attributes : List AttrParam
  paymentMethodId : String
deriving DecidableEq, Repr

/-! ## Cypher write statements, clause by clause -/

/-- One iteration of the attribute `FOREACH` of `upsertUserCypher`:
merge the `Attribute` node, refresh `rawValue`, merge the possession edge,
refresh its confidence score. -/
def userAttrForeachStep (userId : String) (g : GraphState) (attr : AttrParam) :
    GraphState :=
  let ns := setNodeProps (mergeNode g.attrNodes (attr.type, attr.value))
    (attr.type, attr.value) [("rawValue", .str attr.rawValue)]
  let es := mergeEdge g.edges
    ⟨.user userId, "HAS_ATTRIBUTE", [], .attr attr.type attr.value⟩
    [("confidenceScore", .num attr.confidence)]
  { g with attrNodes := ns, edges := es }

/-- One iteration of the payment-method `FOREACH` of `upsertUserCypher`. -/
def userPmForeachStep (userId : String) (g : GraphState) (pm : PmParam) :
    GraphState :=
  let ns := setNodeProps (mergeNode g.pmNodes pm.id) pm.id pm.props
  let es := mergeEdge g.edges
    ⟨.user userId, "USES_PAYMENT_METHOD", [], .pm pm.id⟩
    [("firstUsedAt", .str pm.firstUsedAt), ("lastUsedAt", .str pm.lastUsedAt)]
  { g with pmNodes := ns, edges := es }

/-- `upsertUserCypher`: merge the `User` node, overwrite its properties,
then run both `FOREACH` blocks. -/
def upsertUserCypherExec (userId : String) (props : PropMap)
    (attributes : List AttrParam) (paymentMethods : List PmParam)
    (g : GraphState) : GraphState :=
  let g := { g with userNodes := setNodeProps (mergeNode g.userNodes userId) userId props }
  let g := attributes.foldl (userAttrForeachStep userId) g
  paymentMethods.foldl (userPmForeachStep userId) g

/-- One iteration of the attribute `FOREACH` of `upsertTransactionCypher`. -/
def txAttrForeachStep (txId : String) (g : GraphState) (attr : AttrParam) :
    GraphState :=
  let ns := setNodeProps (mergeNode g.attrNodes (attr.type, attr.value))
    (attr.type, attr.value) [("rawValue", .str attr.rawValue)]
  let es := mergeEdge g.edges
    ⟨.tx txId, "HAS_ATTRIBUTE", [], .attr attr.type attr.value⟩
    [("origin", .str "TRANSACTION")]
  { g with attrNodes := ns, edges := es }

/-- The `OPTIONAL MATCH … collect(DISTINCT other)` of the linkage `UNWIND`:
every other `Transaction` currently possessing the attribute node. -/
def othersWithAttribute (txId attrType attrValue : String) (edges : List Edge) :
    List String :=
  dedup (edges.filterMap (fun e =>
    match e.src with
    | .tx other =>
      if e.rel = "HAS_ATTRIBUTE" ∧ e.tgt = .attr attrType attrValue ∧ other ≠ txId
      then some other else none
    | _ => none))

/-- One linkage row: merge the `LINKED_TO` edge to one other transaction,
stamping score and `datetime()`. -/
def linkMergeStep (txId : String) (now : String) (attr : AttrParam)
    (g : GraphState) (other : String) : GraphState :=
  let es := mergeEdge g.edges
    ⟨.tx txId, "LINKED_TO",
     [("attributeHash", attr.value), ("linkType", attr.type)], .tx other⟩
    [("score", .num attr.score), ("updatedAt", .str now)]
  { g with edges := es }

/-- The linkage rows of one attribute: merge a `LINKED_TO` edge to every
other possessing transaction. -/
def linkStep (txId : String) (now : String) (g : GraphState) (attr : AttrParam) :
    GraphState :=
  (othersWithAttribute txId attr.type attr.value g.edges).foldl
    (linkMergeStep txId now attr) g

/-- The `SET` property map shared by the participation and transfer edges. -/
def txEdgeProps (p : TxParams) : PropMap :=
  [("amount", .num p.amount), ("currency", .str p.currency),
   ("timestamp", .str p.timestamp)]

/-- The leading clauses of `upsertTransactionCypher`: merge the
`Transaction` node, overwrite its properties, merge both participation
edges and both directional transfer edges. -/
def txStage1 (p : TxParams) (g : GraphState) : GraphState :=
  let tn := setNodeProps (mergeNode g.txNodes p.transactionId) p.transactionId p.props
  let g := { g with txNodes := tn }
  let e1 := mergeEdge g.edges
    ⟨.user p.senderId, "PARTICIPATED_IN",
     [("transactionId", p.transactionId), ("role", "SENDER")], .tx p.transactionId⟩
    (txEdgeProps p)
  let g := { g with edges := e1 }
  let e2 := mergeEdge g.edges
    ⟨.user p.receiverId, "PARTICIPATED_IN",
     [("transactionId", p.transactionId), ("role", "RECEIVER")], .tx p.transactionId⟩
    (txEdgeProps p)
  let g := { g with edges := e2 }
  let e3 := mergeEdge g.edges
    ⟨.user p.senderId, "SENT_TO", [("transactionId", p.transactionId)],
     .user p.receiverId⟩ (txEdgeProps p)
  let g := { g with edges := e3 }
  let e4 := mergeEdge g.edges
    ⟨.user p.receiverId, "RECEIVED_FROM", [("transactionId", p.transactionId)],
     .user p.senderId⟩ (txEdgeProps p)
  { g with edges := e4 }

/-- The linkage `UNWIND` and the trailing payment-method clauses (which see
rows only when at least one attribute produced a linkage candidate). -/
def txLinkAndPm (p : TxParams) (now : String) (g6 : GraphState) : GraphState :=
  let hasLinkRows := p.attributes.any (fun a =>
    ¬(othersWithAttribute p.transactionId a.type a.value g6.edges).isEmpty)
  let g := p.attributes.foldl (linkStep p.transactionId now) g6
  if hasLinkRows ∧ p.paymentMethodId ≠ "" ∧ hasKey g.pmNodes p.paymentMethodId then
    let e5 := mergeEdge g.edges
      ⟨.tx p.transactionId, "PAYMENT_METHOD_RELATES", [], .pm p.paymentMethodId⟩
      [("role", .str "SENDER")]
    { g with edges := e5 }
  else g

/-- `upsertTransactionCypher`: the two leading `MATCH` clauses produce zero
rows when either user node is missing, so nothing is written (and the store
reports no error); otherwise the merge stages run in statement order. -/
def upsertTransactionCypherExec (p : TxParams) (now : String) (g : GraphState) :
    GraphState :=
  if ¬(hasKey g.userNodes p.senderId ∧ hasKey g.userNodes p.receiverId) then g
  else
    txLinkAndPm p now
      (p.attributes.foldl (txAttrForeachStep p.transactionId) (txStage1 p g))

/-! ## Relationship query results (`internal/domain`) -/

/-- `domain.DirectUserLink` (timestamps modelled by their parsed text). -/
structure DirectUserLink where
  userId : String
  linkType : String
  direction : String
  transactionId : String
  amount : ℚ
  currency : String
  timestamp : Option String
deriving DecidableEq, Repr

/-- `domain.UserTransactionLink`. -/
structure UserTransactionLink where
  transactionId : String
  role : String
  amount : ℚ
  currency : String
  timestamp : Option String
deriving DecidableEq, Repr

/-- `domain.SharedAttributeLink`. -/
structure SharedAttributeLink where
  attributeType : String
  attributeHash : String
  userIds : List String
deriving DecidableEq, Repr

/-- `domain.UserRelationships`. -/
structure UserRelationships where
  userId : String
  directLinks : List DirectUserLink
  transactions : List UserTransactionLink
  sharedAttributes : List SharedAttributeLink
deriving DecidableEq, Repr

/-- `domain.TransactionUserLink`. -/
structure TransactionUserLink where
  userId : String
  role : String
  amount : ℚ
  currency : String
  direction : String
deriving DecidableEq, Repr

/-- `domain.LinkedTransaction`. -/
structure LinkedTransaction where
  transactionId : String
  linkType : String
  attributeHash : String
  score : ℚ
  lastUpdated : Option String
deriving DecidableEq, Repr

/-- `domain.TransactionRelationships`. -/
structure TransactionRelationships where
  transactionId : String
  users : List TransactionUserLink
  linkedTransactions : List LinkedTransaction
deriving DecidableEq, Repr

/-- `domain.PathNode`. -/
structure PathNode where
  id : String
  type : String
  label : String
  weight : ℚ
deriving DecidableEq, Repr

/-- `domain.PathEdge`. -/
structure PathEdge where
  type : String
  source : String
  target : String
  label : String
  weight : ℚ
deriving DecidableEq, Repr

/-- `domain.ShortestPath`. -/
structure ShortestPath where
  sourceUserId : String
  targetUserId : String
  nodes : List PathNode
  edges : List PathEdge
  hops : Nat
deriving DecidableEq, Repr

/-! ## Cypher read statements -/

/-- `userDirectLinksCypher`: outgoing `SENT_TO` / `RECEIVED_FROM` edges to
peer users. -/
def userDirectLinkRecords (userId : String) (g : GraphState) : List DirectUserLink :=
  g.edges.filterMap (fun e =>
    match e.src, e.tgt with
    | .user u, .user peer =>
      if u = userId ∧ (e.rel = "SENT_TO" ∨ e.rel = "RECEIVED_FROM") then
        some ⟨peer, e.rel,
          (if e.rel = "SENT_TO" then "OUTBOUND" else "INBOUND"),
          lookupKey e.key "transactionId", lookupNum e.props "amount",
          lookupStr e.props "currency", toTimePtrStr (lookupStr e.props "timestamp")⟩
      else none
    | _, _ => none)

/-- `userTransactionsCypher`: participation edges, reading amount, currency
and timestamp from the `Transaction` node. -/
def userTransactionRecords (userId : String) (g : GraphState) :
    List UserTransactionLink :=
  g.edges.filterMap (fun e =>
    match e.src, e.tgt with
    | .user u, .tx t =>
      if u = userId ∧ e.rel = "PARTICIPATED_IN" then
        some ⟨t, lookupKey e.key "role",
          lookupNum (nodeProps g.txNodes t) "amount",
          lookupStr (nodeProps g.txNodes t) "currency",
          toTimePtrStr (lookupStr (nodeProps g.txNodes t) "timestamp")⟩
      else none
    | _, _ => none)

/-- The attribute nodes a user possesses, in edge order. -/
def userAttrTargets (userId : String) (g : GraphState) : List (String × String) :=
  dedup (g.edges.filterMap (fun e =>
    match e.src, e.tgt with
    | .user u, .attr t v =>
      if u = userId ∧ e.rel = "HAS_ATTRIBUTE" then some (t, v) else none
    | _, _ => none))

/-- The other users possessing a given attribute node. -/
def otherUsersWithAttribute (userId : String) (a : String × String)
    (g : GraphState) : List String :=
  dedup (g.edges.filterMap (fun e =>
    match e.src, e.tgt with
    | .user u, .attr t v =>
      if (t, v) = a ∧ e.rel = "HAS_ATTRIBUTE" ∧ u ≠ userId then some u else none
    | _, _ => none))

/-- `userSharedAttributesCypher`: per possessed attribute node, the distinct
other users sharing it (the two-ended `MATCH` yields a row only when at
least one other user exists). -/
def userSharedAttributeRecords (userId : String) (g : GraphState) :
    List SharedAttributeLink :=
  (userAttrTargets userId g).filterMap (fun a =>
    let others := otherUsersWithAttribute userId a g
    if others.isEmpty then none
    else some ⟨a.1, a.2, others.filter (· ≠ "")⟩)

/-- `transactionUsersCypher`: incoming participation edges of a transaction. -/
def transactionUserRecords (txId : String) (g : GraphState) :
    List TransactionUserLink :=
  g.edges.filterMap (fun e =>
    match e.src, e.tgt with
    | .user u, .tx t =>
      if t = txId ∧ e.rel = "PARTICIPATED_IN" then
        some ⟨u, lookupKey e.key "role", lookupNum e.props "amount",
          lookupStr e.props "currency",
          (if lookupKey e.key "role" = "SENDER" then "OUTBOUND" else "INBOUND")⟩
      else none
    | _, _ => none)

/-- `transactionLinkedCypher`: outgoing `LINKED_TO` edges of a transaction. -/
def transactionLinkedRecords (txId : String) (g : GraphState) :
    List LinkedTransaction :=
  g.edges.filterMap (fun e =>
    match e.src, e.tgt with
    | .tx t, .tx other =>
      if t = txId ∧ e.rel = "LINKED_TO" then
        some ⟨other, lookupKey e.key "linkType", lookupKey e.key "attributeHash",
          lookupNum e.props "score", toTimePtrStr (lookupStr e.props "updatedAt")⟩
      else none
    | _, _ => none)

/-! ### Bounded shortest-path search (`shortestPathCypher`) -/

/-- The `id` field of a path node (`coalesce(userId, transactionId,
paymentMethodId, value, …)`). -/
def nodeRefId : NodeRef → String
  | .user u => u
  | .tx t => t
  | .attr _ v => v
  | .pm p => p

/-- The `label` field of a path node (`coalesce(userId, transactionId,
attributeType, paymentMethodId, value)`). -/
def nodeRefLabel : NodeRef → String
  | .user u => u
  | .tx t => t
  | .attr t _ => t
  | .pm p => p

/-- The node's label (`head(labels(n))`). -/
def nodeRefType : NodeRef → String
  | .user _ => "User"
  | .tx _ => "Transaction"
  | .attr _ _ => "Attribute"
  | .pm _ => "PaymentMethod"

/-- A candidate path during the breadth-first search (most recent node and
edge first). -/
structure SearchPath where
  revNodes : List NodeRef
  revEdges : List Edge
deriving DecidableEq, Repr

/-- Undirected one-step extensions of a path that do not revisit a node. -/
def extendPath (edges : List Edge) (p : SearchPath) : List SearchPath :=
  match p.revNodes with
  | [] => []
  | head :: _ =>
    edges.filterMap (fun e =>
      if e.src = head ∧ ¬(e.tgt ∈ p.revNodes) then
        some ⟨e.tgt :: p.revNodes, e :: p.revEdges⟩
      else if e.tgt = head ∧ ¬(e.src ∈ p.revNodes) then
        some ⟨e.src :: p.revNodes, e :: p.revEdges⟩
      else none)

/-- Level-by-level unweighted search: the first level containing the target
yields the returned path, so the hop count is minimal (which of several
equal-length paths is produced is as unspecified as in the store). -/
def bfsLevels (edges : List Edge) (target : NodeRef) :
    Nat → List SearchPath → Option SearchPath
  | 0, _ => none
  | fuel + 1, frontier =>
    let next := frontier.flatMap (extendPath edges)
    match next.find? (fun p => p.revNodes.head? = some target) with
    | some p => some p
    | none => if next.isEmpty then none else bfsLevels edges target fuel next

/-- The single record of `shortestPathCypher`: present when both user nodes
exist and an undirected path of at most 6 hops connects them. -/
def shortestPathRecord (sourceId targetId : String) (g : GraphState) :
    Option (List PathNode × List PathEdge × Nat) :=
  if hasKey g.userNodes sourceId ∧ hasKey g.userNodes targetId then
    match bfsLevels g.edges (.user targetId) 6 [⟨[.user sourceId], []⟩] with
    | none => none
    | some p =>
      let nodes := p.revNodes.reverse.map (fun n =>
        PathNode.mk (nodeRefId n) (nodeRefType n) (nodeRefLabel n) 1)
      let edges := p.revEdges.reverse.map (fun e =>
        PathEdge.mk e.rel (nodeRefId e.src) (nodeRefId e.tgt) e.rel 1)
      some (nodes, edges, p.revEdges.length)
  else none

/-! ## Errors (`errors`, `fmt.Errorf`, `context`) -/

/-- A Go error value as the engine distinguishes them: the two context
sentinel errors, plain messages, `fmt.Errorf("…: %w", err)` wrappings, and
the composite `*service.TaskError`. -/
inductive GoErr
  | canceled
  | deadlineExceeded
  | msg (s : String)
  | wrap (m : String) (inner : GoErr)
  | taskErr (errs : List GoErr)
deriving Repr

/-- `errors.Is(e, target)` for the two context sentinel targets, the only
targets the engine tests: compare at each level of the `%w` chain
(`TaskError` has no `Unwrap` method, so it never matches through). -/
def errorsIs : GoErr → GoErr → Bool
  | .canceled, .canceled => true
  | .deadlineExceeded, .deadlineExceeded => true
  | .wrap _ inner, target => errorsIs inner target
  | _, _ => false

/-- The cancellation test of `BulkIngestor.run`:
`errors.Is(err, context.Canceled) || errors.Is(err, context.DeadlineExceeded)`. -/
def isCancellation (e : GoErr) : Bool :=
  errorsIs e .canceled || errorsIs e .deadlineExceeded

/-! ## Graph client model (`internal/graph`) -/

/-- The write statements the repository issues, with their parameters. -/
inductive WriteQuery
  | upsertUserQ (userId : String) (props : PropMap) (attributes : List AttrParam)
      (paymentMethods : List PmParam)
  | upsertTransactionQ (p : TxParams)
deriving DecidableEq, Repr

/-- The read statements the relationship queries issue, with their
parameters. -/
inductive ReadQuery
  | userDirectLinksQ (userId : String)
  | userTransactionsQ (userId : String)
  | userSharedAttributesQ (userId : String)
  | transactionUsersQ (txId : String)
  | transactionLinkedQ (txId : String)
  | shortestPathQ (sourceId targetId : String)
deriving DecidableEq, Repr

/-- A statement executed against the store. -/
inductive StoreCall
  | write (q : WriteQuery)
  | read (q : ReadQuery)
deriving DecidableEq, Repr

/-- Is this call a read? -/
def StoreCall.isRead : StoreCall → Bool
  | .read _ => true
  | .write _ => false

/-- The graph client: the store state, the store-side `datetime()` clock,
an injectable client failure (connectivity loss and the like, as in the
in-memory test client), and the trace of executed statements. -/
structure ClientState where
  graph : GraphState
  now : String
  err : Option GoErr
  calls : List StoreCall
deriving Repr

/-- Apply a write statement to the store. -/
def applyWrite (q : WriteQuery) (now : String) (g : GraphState) : GraphState :=
  match q with
  | .upsertUserQ userId props attributes paymentMethods =>
    upsertUserCypherExec userId props attributes paymentMethods g
  | .upsertTransactionQ p => upsertTransactionCypherExec p now g

/-- `Client.ExecuteWrite`: fail when the client is failing, otherwise run
the statement and record the call. -/
def executeWrite (q : WriteQuery) (c : ClientState) : Except GoErr ClientState :=
  match c.err with
  | some e => .error e
  | none => .ok { c with graph := applyWrite q c.now c.graph,
                         calls := c.calls ++ [.write q] }

/-- `Client.ExecuteRead`, recording the call (the rows themselves are
computed from the unchanged graph by the per-statement record functions). -/
def executeReadMark (q : ReadQuery) (c : ClientState) : Except GoErr ClientState :=
  match c.err with
  | some e => .error e
  | none => .ok { c with calls := c.calls ++ [.read q] }

/-! ## Repository operations (`internal/repository`) -/

namespace Repository

/-- `Repository.UpsertUser`. -/
def UpsertUser (user : User) (c : ClientState) : Except GoErr ClientState :=
  if user.id = "" then .error (.msg "user id is required")
  else
    match executeWrite (.upsertUserQ user.id (userProperties user)
        (attributeParams user.attributes)
        (paymentMethodParams user.paymentMethods)) c with
    | .error e => .error (.wrap ("upsert user " ++ user.id) e)
    | .ok c' => .ok c'

/-- `Repository.UpsertTransaction`. -/
def UpsertTransaction (tx : Transaction) (attributes : List Attribute)
    (c : ClientState) : Except GoErr ClientState :=
  if tx.id = "" then .error (.msg "transaction id is required")
  else if tx.senderUserID = "" ∨ tx.receiverUserID = "" then
    .error (.msg "both sender and receiver user IDs are required")
  else
    match executeWrite (.upsertTransactionQ
        ⟨tx.id, tx.senderUserID, tx.receiverUserID, tx.amount, tx.currency,
         formatTime tx.timestamp, transactionProperties tx,
         attributeParams attributes, tx.paymentMethodID⟩) c with
    | .error e => .error (.wrap ("upsert transaction " ++ tx.id) e)
    | .ok c' => .ok c'

/-- `Repository.FetchUserRelationships`: three reads, assembled into the
consolidated view. -/
def FetchUserRelationships (userId : String) (c : ClientState) :
    Except GoErr (UserRelationships × ClientState) :=
  if userId = "" then .error (.msg "user id is required")
  else
    match executeReadMark (.userDirectLinksQ userId) c with
    | .error e => .error (.wrap "fetch user direct links" e)
    | .ok c1 =>
      match executeReadMark (.userTransactionsQ userId) c1 with
      | .error e => .error (.wrap "fetch user transactions" e)
      | .ok c2 =>
        match executeReadMark (.userSharedAttributesQ userId) c2 with
        | .error e => .error (.wrap "fetch shared attributes" e)
        | .ok c3 =>
          .ok (⟨userId, userDirectLinkRecords userId c.graph,
            userTransactionRecords userId c.graph,
            userSharedAttributeRecords userId c.graph⟩, c3)

/-- `Repository.FetchTransactionRelationships`: two reads. -/
def FetchTransactionRelationships (txId : String) (c : ClientState) :
    Except GoErr (TransactionRelationships × ClientState) :=
  if txId = "" then .error (.msg "transaction id is required")
  else
    match executeReadMark (.transactionUsersQ txId) c with
    | .error e => .error (.wrap "fetch transaction users" e)
    | .ok c1 =>
      match executeReadMark (.transactionLinkedQ txId) c1 with
      | .error e => .error (.wrap "fetch linked transactions" e)
      | .ok c2 =>
        .ok (⟨txId, transactionUserRecords txId c.graph,
          transactionLinkedRecords txId c.graph⟩, c2)

/-- `Repository.ShortestPathBetweenUsers`: the trivial equal-ids path is
answered locally; otherwise a single read runs the bounded search. -/
def ShortestPathBetweenUsers (sourceId targetId : String) (c : ClientState) :
    Except GoErr (ShortestPath × ClientState) :=
  if sourceId = "" ∨ targetId = "" then
    .error (.msg "source and target user IDs are required")
  else if sourceId = targetId then
    .ok (⟨sourceId, targetId, [⟨sourceId, "User", sourceId, 0⟩], [], 0⟩, c)
  else
    match executeReadMark (.shortestPathQ sourceId targetId) c with
    | .error e => .error (.wrap "shortest path query" e)
    | .ok c1 =>
      match shortestPathRecord sourceId targetId c.graph with
      | none => .ok (⟨sourceId, targetId, [], [], 0⟩, c1)
      | some (nodes, edges, hops) =>
        .ok (⟨sourceId, targetId, nodes, edges, hops⟩, c1)

end Repository

/-! ## Relationship service (`internal/service`) -/

/-- `RelationshipService.UpsertUser`, with `now = s.nowFn().UTC()`: validate
the id, build the domain user (normalization plus derived and custom
attributes) and hand it to the repository.  The client state is returned
alongside the outcome, as the store persists across item failures. -/
def serviceUpsertUser (input : UserInput) (now : GoTime) (c : ClientState) :
    ClientState × Option GoErr :=
  if input.id = "" then (c, some (.msg "user ID is required"))
  else
    match Repository.UpsertUser (buildUser input now) c with
    | .ok c' => (c', none)
    | .error e => (c, some e)

/-- `RelationshipService.UpsertTransaction`. -/
def serviceUpsertTransaction (input : TransactionInput) (now : GoTime)
    (c : ClientState) : ClientState × Option GoErr :=
  if input.id = "" then (c, some (.msg "transaction ID is required"))
  else if input.senderUserID = "" ∨ input.receiverUserID = "" then
    (c, some (.msg "sender and receiver user IDs are required"))
  else
    match Repository.UpsertTransaction (buildTransaction input now)
        (FromTransaction input) c with
    | .ok c' => (c', none)
    | .error e => (c, some e)

/-! ## Bulk ingestion (`internal/service/worker.go`) -/

/-- The error-draining loop at the end of `BulkIngestor.run`: the first
collected cancellation error is returned as-is; otherwise the non-nil
errors are accumulated into a `TaskError`, which resolves to no error when
empty. -/
def drainErrors : List GoErr → List GoErr → Option GoErr
  | [], acc => if acc.isEmpty then none else some (.taskErr acc)
  | e :: rest, acc =>
    if isCancellation e then some e
    else drainErrors rest (acc ++ [e])

/-- The dispatch-and-collect phase of `BulkIngestor.run`, as its sequential
reference interleaving: every index is dispatched exactly once and each
item's error lands in the buffered error channel.  This is exact whenever
no cancellation fires (the only mechanism that halts dispatch early). -/
def runItems {α : Type} (f : α → ClientState → ClientState × Option GoErr) :
    List α → ClientState → ClientState × List GoErr
  | [], c => (c, [])
  | x :: rest, c =>
    let (c', e) := f x c
    let (c'', errs) := runItems f rest c'
    (c'', (match e with | some err => [err] | none => []) ++ errs)

/-- `BulkIngestor.run`: empty batches short-circuit, otherwise the
collected errors are drained into the returned error. -/
def bulkRun {α : Type} (items : List α)
    (f : α → ClientState → ClientState × Option GoErr) (c : ClientState) :
    ClientState × Option GoErr :=
  if items.isEmpty then (c, none)
  else
    let (c', errs) := runItems f items c
    (c', drainErrors errs [])

/-- `BulkIngestor.IngestUsers`. -/
def IngestUsers (users : List UserInput) (now : GoTime) (c : ClientState) :
    ClientState × Option GoErr :=
  bulkRun users (fun u => serviceUpsertUser u now) c

/-- `BulkIngestor.IngestTransactions`. -/
def IngestTransactions (txs : List TransactionInput) (now : GoTime)
    (c : ClientState) : ClientState × Option GoErr :=
  bulkRun txs (fun t => serviceUpsertTransaction t now) c

/-! ## Theorems -/

/-- C6: for every non-empty user id `u`, `ShortestPathBetweenUsers(u, u)`
answers locally with the single-node zero-hop path — nodes exactly `[u]`
(typed `User`, labelled `u`), no edges, hop count `0` — and returns the
client state untouched: no read or write reaches the store. -/
theorem shortestPath_self_trivial (u : String) (c : ClientState) (h : u ≠ "") :
    Repository.ShortestPathBetweenUsers u u c =
      .ok (⟨u, u, [⟨u, "User", u, 0⟩], [], 0⟩, c) := by
  simp [Repository.ShortestPathBetweenUsers, h]

/-- Witness for C6 at a concrete user id and client state. -/
theorem shortestPath_self_trivial_witness :
    ("USR-7" : String) ≠ "" ∧
      Repository.ShortestPathBetweenUsers "USR-7" "USR-7"
          ⟨⟨[("USR-7", [])], [], [], [], []⟩, "NOW", none, []⟩ =
        .ok (⟨"USR-7", "USR-7", [⟨"USR-7", "User", "USR-7", 0⟩], [], 0⟩,
          ⟨⟨[("USR-7", [])], [], [], [], []⟩, "NOW", none, []⟩) :=
  ⟨by decide, shortestPath_self_trivial "USR-7" _ (by decide)⟩

/-- C8: the three relationship queries mutate nothing: whenever they
succeed, the graph and the client error state are unchanged and every
statement they appended to the trace is a read. -/
theorem relationship_queries_read_only :
    (∀ (userId : String) (c : ClientState) r c',
      Repository.FetchUserRelationships userId c = .ok (r, c') →
      c'.graph = c.graph ∧ c'.err = c.err ∧
        ∃ new, c'.calls = c.calls ++ new ∧ ∀ q ∈ new, q.isRead = true) ∧
    (∀ (txId : String) (c : ClientState) r c',
      Repository.FetchTransactionRelationships txId c = .ok (r, c') →
      c'.graph = c.graph ∧ c'.err = c.err ∧
        ∃ new, c'.calls = c.calls ++ new ∧ ∀ q ∈ new, q.isRead = true) ∧
    (∀ (s t : String) (c : ClientState) r c',
      Repository.ShortestPathBetweenUsers s t c = .ok (r, c') →
      c'.graph = c.graph ∧ c'.err = c.err ∧
        ∃ new, c'.calls = c.calls ++ new ∧ ∀ q ∈ new, q.isRead = true) := by
  refine ⟨?_, ?_, ?_⟩
  · intro userId c r c' h
    by_cases h1 : userId = ""
    · simp [Repository.FetchUserRelationships, h1] at h
    · cases herr : c.err with
      | some e =>
        simp [Repository.FetchUserRelationships, h1, executeReadMark, herr] at h
      | none =>
        simp [Repository.FetchUserRelationships, h1, executeReadMark, herr] at h
        obtain ⟨hr, hc⟩ := h
        subst hc
        refine ⟨rfl, rfl,
          [.read (.userDirectLinksQ userId), .read (.userTransactionsQ userId),
           .read (.userSharedAttributesQ userId)], by simp, ?_⟩
        intro q hq
        simp at hq
        rcases hq with h' | h' | h' <;> subst h' <;> rfl
  · intro txId c r c' h
    by_cases h1 : txId = ""
    · simp [Repository.FetchTransactionRelationships, h1] at h
    · cases herr : c.err with
      | some e =>
        simp [Repository.FetchTransactionRelationships, h1, executeReadMark, herr] at h
      | none =>
        simp [Repository.FetchTransactionRelationships, h1, executeReadMark, herr] at h
        obtain ⟨hr, hc⟩ := h
        subst hc
        refine ⟨rfl, rfl,
          [.read (.transactionUsersQ txId), .read (.transactionLinkedQ txId)],
          by simp, ?_⟩
        intro q hq
        simp at hq
        rcases hq with h' | h' <;> subst h' <;> rfl
  · intro s t c r c' h
    rw [Repository.ShortestPathBetweenUsers] at h
    by_cases h1 : s = "" ∨ t = ""
    · rw [if_pos h1] at h
      exact absurd h (by simp)
    · rw [if_neg h1] at h
      by_cases h2 : s = t
      · rw [if_pos h2] at h
        simp only [Except.ok.injEq, Prod.mk.injEq] at h
        obtain ⟨hr, hc⟩ := h
        subst hc
        exact ⟨rfl, rfl, [], by simp, by simp⟩
      · rw [if_neg h2] at h
        cases herr : c.err with
        | some e =>
          simp [executeReadMark, herr] at h
        | none =>
          simp only [executeReadMark, herr] at h
          cases hrec : shortestPathRecord s t c.graph with
          | none =>
            simp [hrec] at h
            obtain ⟨hr, hc⟩ := h
            subst hc
            refine ⟨rfl, rfl, [.read (.shortestPathQ s t)], by simp, ?_⟩
            intro q hq
            simp at hq
            subst hq
            rfl
          | some rec =>
            obtain ⟨nodes, edges, hops⟩ := rec
            simp [hrec] at h
            obtain ⟨hr, hc⟩ := h
            subst hc
            refine ⟨rfl, rfl, [.read (.shortestPathQ s t)], by simp, ?_⟩
            intro q hq
            simp at hq
            subst hq
            rfl

/-- Witness for C8: a successful fetch on a concrete state, with the
read-only conclusions instantiated. -/
theorem relationship_queries_read_only_witness :
    (⟨⟨[], [], [], [], []⟩, "NOW", none,
        [.read (.userDirectLinksQ "U"), .read (.userTransactionsQ "U"),
         .read (.userSharedAttributesQ "U")]⟩ : ClientState).graph =
      (⟨⟨[], [], [], [], []⟩, "NOW", none, []⟩ : ClientState).graph ∧
    (⟨⟨[], [], [], [], []⟩, "NOW", none,
        [.read (.userDirectLinksQ "U"), .read (.userTransactionsQ "U"),
         .read (.userSharedAttributesQ "U")]⟩ : ClientState).err =
      (⟨⟨[], [], [], [], []⟩, "NOW", none, []⟩ : ClientState).err ∧
    ∃ new,
      (⟨⟨[], [], [], [], []⟩, "NOW", none,
          [.read (.userDirectLinksQ "U"), .read (.userTransactionsQ "U"),
           .read (.userSharedAttributesQ "U")]⟩ : ClientState).calls =
        (⟨⟨[], [], [], [], []⟩, "NOW", none, []⟩ : ClientState).calls ++ new ∧
      ∀ q ∈ new, q.isRead = true :=
  relationship_queries_read_only.1 "U" ⟨⟨[], [], [], [], []⟩, "NOW", none, []⟩
    ⟨"U", [], [], []⟩ _ rfl

/-- The conversion of one kept custom attribute lands in the output of
`convertCustomAttributes`. -/
theorem convertCustomAttributes_mem (attrs : List AttributeInput)
    (attr : AttributeInput) (hmem : attr ∈ attrs) (ht : attr.type ≠ "")
    (hv : attr.value ≠ "") :
    (⟨attr.type, attr.value, attr.rawValue,
      if attr.confidenceScore = 0 then defaultConfidenceScore
      else attr.confidenceScore⟩ : Attribute) ∈ convertCustomAttributes attrs := by
  induction attrs with
  | nil => cases hmem
  | cons a rest ih =>
    rcases List.mem_cons.mp hmem with h | h
    · subst h
      rw [convertCustomAttributes, if_neg (by tauto)]
      exact List.mem_cons_self _ _
    · rw [convertCustomAttributes]
      split
      · exact ih h
      · exact List.mem_cons_of_mem _ (ih h)

/-- C9: a caller-supplied custom attribute with non-empty type and value
reaches the repository write with its confidence score passed through
unchanged whenever it is non-zero — negative values and values above 1
included, no clamping — and replaced by `1.0` exactly when it is zero. -/
theorem custom_confidence_forwarded (input : UserInput) (now : GoTime)
    (c : ClientState) (attr : AttributeInput) (hmem : attr ∈ input.attributes)
    (ht : attr.type ≠ "") (hv : attr.value ≠ "") (hid : input.id ≠ "")
    (herr : c.err = none) :
    (⟨attr.type, attr.value, attr.rawValue,
      if attr.confidenceScore = 0 then defaultConfidenceScore
      else attr.confidenceScore⟩ : Attribute) ∈ (buildUser input now).attributes ∧
    ∃ c', serviceUpsertUser input now c = (c', none) ∧
      c'.calls = c.calls ++
        [.write (.upsertUserQ input.id (userProperties (buildUser input now))
          (attributeParams (buildUser input now).attributes)
          (paymentMethodParams (buildUser input now).paymentMethods))] ∧
      (⟨attr.type, attr.value, attr.rawValue,
        (if attr.confidenceScore = 0 then defaultConfidenceScore
         else attr.confidenceScore),
        (if attr.confidenceScore = 0 then defaultConfidenceScore
         else attr.confidenceScore)⟩ : AttrParam) ∈
        attributeParams (buildUser input now).attributes := by
  have hlen : input.attributes.length > 0 := by
    cases hl : input.attributes with
    | nil => rw [hl] at hmem; cases hmem
    | cons a rest => simp [hl]
  have hconv := convertCustomAttributes_mem input.attributes attr hmem ht hv
  have hbuild : (⟨attr.type, attr.value, attr.rawValue,
      if attr.confidenceScore = 0 then defaultConfidenceScore
      else attr.confidenceScore⟩ : Attribute) ∈ (buildUser input now).attributes := by
    rw [buildUser]
    simp only [if_pos hlen]
    exact List.mem_append_right _ hconv
  refine ⟨hbuild, ?_⟩
  have hbid : (buildUser input now).id = input.id := rfl
  have hrep : Repository.UpsertUser (buildUser input now) c =
      .ok { c with
        graph := applyWrite (.upsertUserQ input.id
          (userProperties (buildUser input now))
          (attributeParams (buildUser input now).attributes)
          (paymentMethodParams (buildUser input now).paymentMethods)) c.now c.graph,
        calls := c.calls ++ [.write (.upsertUserQ input.id
          (userProperties (buildUser input now))
          (attributeParams (buildUser input now).attributes)
          (paymentMethodParams (buildUser input now).paymentMethods))] } := by
    rw [Repository.UpsertUser]
    rw [hbid, if_neg hid, executeWrite, herr]
  rw [serviceUpsertUser, if_neg hid, hrep]
  exact ⟨_, rfl, rfl, List.mem_map.mpr ⟨_, hbuild, rfl⟩⟩

/-- Witness for C9: a custom attribute with confidence score `-3` is
forwarded as `-3` (no clamping into `[0,1]`). -/
theorem custom_confidence_forwarded_witness :
    (⟨"LOYALTY", "L-1", "raw", if (-3 : ℚ) = 0 then defaultConfidenceScore
      else (-3 : ℚ)⟩ : Attribute) ∈
      (buildUser ⟨"USR-9", "", "", "", ⟨"", "", "", "", "", ""⟩, none, "", 0, [],
        [⟨"LOYALTY", "L-1", "raw", -3⟩], none, none⟩
        ⟨false, "2024-01-01", "t", "t"⟩).attributes ∧
    ∃ c', serviceUpsertUser
        ⟨"USR-9", "", "", "", ⟨"", "", "", "", "", ""⟩, none, "", 0, [],
          [⟨"LOYALTY", "L-1", "raw", -3⟩], none, none⟩
        ⟨false, "2024-01-01", "t", "t"⟩
        ⟨⟨[], [], [], [], []⟩, "NOW", none, []⟩ = (c', none) ∧
      c'.calls = (⟨⟨[], [], [], [], []⟩, "NOW", none, []⟩ : ClientState).calls ++
        [.write (.upsertUserQ "USR-9"
          (userProperties (buildUser
            ⟨"USR-9", "", "", "", ⟨"", "", "", "", "", ""⟩, none, "", 0, [],
              [⟨"LOYALTY", "L-1", "raw", -3⟩], none, none⟩
            ⟨false, "2024-01-01", "t", "t"⟩))
          (attributeParams (buildUser
            ⟨"USR-9", "", "", "", ⟨"", "", "", "", "", ""⟩, none, "", 0, [],
              [⟨"LOYALTY", "L-1", "raw", -3⟩], none, none⟩
            ⟨false, "2024-01-01", "t", "t"⟩).attributes)
          (paymentMethodParams (buildUser
            ⟨"USR-9", "", "", "", ⟨"", "", "", "", "", ""⟩, none, "", 0, [],
              [⟨"LOYALTY", "L-1", "raw", -3⟩], none, none⟩
            ⟨false, "2024-01-01", "t", "t"⟩).paymentMethods))] ∧
      (⟨"LOYALTY", "L-1", "raw",
        (if (-3 : ℚ) = 0 then defaultConfidenceScore else (-3 : ℚ)),
        (if (-3 : ℚ) = 0 then defaultConfidenceScore else (-3 : ℚ))⟩ : AttrParam) ∈
        attributeParams (buildUser
          ⟨"USR-9", "", "", "", ⟨"", "", "", "", "", ""⟩, none, "", 0, [],
            [⟨"LOYALTY", "L-1", "raw", -3⟩], none, none⟩
          ⟨false, "2024-01-01", "t", "t"⟩).attributes :=
  custom_confidence_forwarded _ _ _ ⟨"LOYALTY", "L-1", "raw", -3⟩
    (by decide) (by decide) (by decide) (by decide) rfl

/-- C10: a phone input whose digit content is exactly `"00"` normalizes to
the non-empty string `"+"` (the emptiness check runs before the `"00"`
prefix removal), so `FromUser` emits a `PHONE` attribute hashing `"+"` —
identical for every such user. -/
theorem phone_digits_double_zero (input : UserInput)
    (h : stripNonDigits (trimSpace input.phone) = "00") :
    normalizePhone input.phone = "+" ∧
    (⟨AttributeTypePhone, hashValue "+", "+", defaultConfidenceScore⟩ : Attribute)
      ∈ FromUser input := by
  have hnorm : normalizePhone input.phone = "+" := by
    rw [normalizePhone]
    simp only [h]
    decide
  refine ⟨hnorm, ?_⟩
  rw [FromUser]
  refine List.mem_append_left _ (List.mem_append_left _ (List.mem_append_right _ ?_))
  rw [hnorm]
  simp [AttributeTypePhone]

/-- Witness for C10 at the concrete phone string `"0-0"`. -/
theorem phone_digits_double_zero_witness :
    stripNonDigits (trimSpace ("0-0" : String)) = "00" ∧
    (normalizePhone "0-0" = "+" ∧
      (⟨AttributeTypePhone, hashValue "+", "+", defaultConfidenceScore⟩ : Attribute)
        ∈ FromUser ⟨"USR-10", "", "", "0-0", ⟨"", "", "", "", "", ""⟩, none, "", 0,
            [], [], none, none⟩) :=
  ⟨by decide, phone_digits_double_zero
    ⟨"USR-10", "", "", "0-0", ⟨"", "", "", "", "", ""⟩, none, "", 0, [], [], none,
      none⟩ (by decide)⟩

/-- A cancellation-satisfying error is never the composite `TaskError`. -/
theorem isCancellation_not_taskErr (e : GoErr) (h : isCancellation e = true) :
    ∀ l, e ≠ GoErr.taskErr l := by
  intro l hl
  subst hl
  simp [isCancellation, errorsIs] at h

/-- The drain loop of `BulkIngestor.run` returns the first collected
cancellation error as-is, regardless of previously accumulated errors. -/
theorem drainErrors_of_any_cancellation (errs : List GoErr) :
    errs.any isCancellation = true →
    ∀ acc, ∃ e, errs.find? isCancellation = some e ∧
      drainErrors errs acc = some e ∧ isCancellation e = true := by
  induction errs with
  | nil => intro h; simp at h
  | cons e rest ih =>
    intro h acc
    by_cases hc : isCancellation e = true
    · exact ⟨e, by simp [List.find?, hc], by simp [drainErrors, hc], hc⟩
    · have hrest : rest.any isCancellation = true := by
        simp only [List.any_cons, hc] at h
        simpa using h
      obtain ⟨e', hfind, hdrain, hcanc⟩ := ih hrest (acc ++ [e])
      refine ⟨e', ?_, ?_, hcanc⟩
      · simp [List.find?, hc, hfind]
      · simp [drainErrors, hc, hdrain]

/-- `BulkIngestor.run` on a non-empty batch drains the collected errors. -/
theorem bulkRun_eq {α : Type} (items : List α)
    (f : α → ClientState → ClientState × Option GoErr) (c : ClientState)
    (h : items ≠ []) :
    bulkRun items f c =
      ((runItems f items c).1, drainErrors (runItems f items c).2 []) := by
  rw [bulkRun, if_neg (by simpa using h)]

/-- C4: whenever the per-item errors collected by a bulk ingestion contain
a cancellation (`context.Canceled` / `context.DeadlineExceeded`, possibly
`%w`-wrapped), `IngestUsers` and `IngestTransactions` return that very
error — the first collected one — and never the composite `TaskError`,
regardless of the other collected validation or store errors. -/
theorem bulk_cancellation_precedence :
    (∀ (users : List UserInput) (now : GoTime) (c : ClientState),
      ((runItems (fun u => serviceUpsertUser u now) users c).2.any isCancellation
        = true) →
      ∃ e, (runItems (fun u => serviceUpsertUser u now) users c).2.find?
          isCancellation = some e ∧
        (IngestUsers users now c).2 = some e ∧ isCancellation e = true ∧
        ∀ l, e ≠ GoErr.taskErr l) ∧
    (∀ (txs : List TransactionInput) (now : GoTime) (c : ClientState),
      ((runItems (fun t => serviceUpsertTransaction t now) txs c).2.any
        isCancellation = true) →
      ∃ e, (runItems (fun t => serviceUpsertTransaction t now) txs c).2.find?
          isCancellation = some e ∧
        (IngestTransactions txs now c).2 = some e ∧ isCancellation e = true ∧
        ∀ l, e ≠ GoErr.taskErr l) := by
  constructor
  · intro users now c h
    have hne : users ≠ [] := by
      intro hnil
      subst hnil
      simp [runItems] at h
    obtain ⟨e, hfind, hdrain, hcanc⟩ :=
      drainErrors_of_any_cancellation _ h []
    refine ⟨e, hfind, ?_, hcanc, isCancellation_not_taskErr e hcanc⟩
    rw [IngestUsers, bulkRun_eq _ _ _ hne]
    exact hdrain
  · intro txs now c h
    have hne : txs ≠ [] := by
      intro hnil
      subst hnil
      simp [runItems] at h
    obtain ⟨e, hfind, hdrain, hcanc⟩ :=
      drainErrors_of_any_cancellation _ h []
    refine ⟨e, hfind, ?_, hcanc, isCancellation_not_taskErr e hcanc⟩
    rw [IngestTransactions, bulkRun_eq _ _ _ hne]
    exact hdrain

/-- Witness for C4: a batch of two users against a client whose store calls
fail with `context.DeadlineExceeded`; the first item's wrapped deadline
error is collected and returned verbatim. -/
theorem bulk_cancellation_precedence_witness :
    ((runItems (fun u => serviceUpsertUser u
        ⟨false, "2024-01-01", "t", "t"⟩)
      [⟨"U1", "", "", "", ⟨"", "", "", "", "", ""⟩, none, "", 0, [], [], none, none⟩,
       ⟨"U2", "", "", "", ⟨"", "", "", "", "", ""⟩, none, "", 0, [], [], none, none⟩]
      ⟨⟨[], [], [], [], []⟩, "NOW", some GoErr.deadlineExceeded, []⟩).2.any
        isCancellation = true) ∧
    ∃ e, (runItems (fun u => serviceUpsertUser u
        ⟨false, "2024-01-01", "t", "t"⟩)
      [⟨"U1", "", "", "", ⟨"", "", "", "", "", ""⟩, none, "", 0, [], [], none, none⟩,
       ⟨"U2", "", "", "", ⟨"", "", "", "", "", ""⟩, none, "", 0, [], [], none, none⟩]
      ⟨⟨[], [], [], [], []⟩, "NOW", some GoErr.deadlineExceeded, []⟩).2.find?
        isCancellation = some e ∧
      (IngestUsers
        [⟨"U1", "", "", "", ⟨"", "", "", "", "", ""⟩, none, "", 0, [], [], none, none⟩,
         ⟨"U2", "", "", "", ⟨"", "", "", "", "", ""⟩, none, "", 0, [], [], none, none⟩]
        ⟨false, "2024-01-01", "t", "t"⟩
        ⟨⟨[], [], [], [], []⟩, "NOW", some GoErr.deadlineExceeded, []⟩).2 = some e ∧
      isCancellation e = true ∧ ∀ l, e ≠ GoErr.taskErr l :=
  ⟨rfl, bulk_cancellation_precedence.1 _ _ _ rfl⟩

/-- Unpeeling one delimiter-free component from a `"|"`-joined string
determines it and the remainder. -/
theorem bar_append_inj (s1 : List Char) :
    ∀ (s2 t1 t2 : List Char), '|' ∉ s1 → '|' ∉ s2 →
    s1 ++ '|' :: t1 = s2 ++ '|' :: t2 → s1 = s2 ∧ t1 = t2 := by
  induction s1 with
  | nil =>
    intro s2 t1 t2 _ h2 h
    cases s2 with
    | nil => simpa using h
    | cons b bs =>
      simp only [List.nil_append, List.cons_append, List.cons.injEq] at h
      exact absurd (h.1 ▸ List.mem_cons_self b bs) h2
  | cons a as ih =>
    intro s2 t1 t2 h1 h2 h
    cases s2 with
    | nil =>
      simp only [List.nil_append, List.cons_append, List.cons.injEq] at h
      exact absurd (h.1.symm ▸ List.mem_cons_self a as) h1
    | cons b bs =>
      simp only [List.cons_append, List.cons.injEq] at h
      obtain ⟨hab, h'⟩ := h
      have h1' : '|' ∉ as := fun hm => h1 (List.mem_cons_of_mem _ hm)
      have h2' : '|' ∉ bs := fun hm => h2 (List.mem_cons_of_mem _ hm)
      obtain ⟨hs, ht⟩ := ih bs t1 t2 h1' h2' h'
      exact ⟨by rw [hab, hs], ht⟩

/-- Two strings with equal character data are equal. -/
theorem stringDataInj {x y : String} (h : x.data = y.data) : x = y := by
  cases x
  cases y
  exact congrArg String.mk h

/-- C7 (amended): equal lowercase-trimmed components always yield identical
canonical address strings; the converse holds whenever no component
contains the delimiter `'|'` (an unescaped delimiter inside a component can
collide with the field boundaries). -/
theorem normalizeAddress_eq_iff_components :
    (∀ a b : AddressInput, normalizedComponents a = normalizedComponents b →
      normalizeAddress a = normalizeAddress b) ∧
    (∀ a b : AddressInput,
      (∀ s ∈ normalizedComponents a, '|' ∉ s.data) →
      (∀ s ∈ normalizedComponents b, '|' ∉ s.data) →
      normalizeAddress a = normalizeAddress b →
      normalizedComponents a = normalizedComponents b) := by
  constructor
  · intro a b h
    rw [normalizeAddress, normalizeAddress, h]
  · intro a b ha hb h
    have hd : (normalizeAddress a).data = (normalizeAddress b).data := by rw [h]
    rw [normalizeAddress, normalizeAddress, normalizedComponents,
      normalizedComponents] at hd
    simp only [goJoin, String.data_append, List.append_assoc,
      List.singleton_append] at hd
    have ma1 := ha (goToLower (trimSpace a.line1)) (by simp [normalizedComponents])
    have ma2 := ha (goToLower (trimSpace a.line2)) (by simp [normalizedComponents])
    have ma3 := ha (goToLower (trimSpace a.city)) (by simp [normalizedComponents])
    have ma4 := ha (goToLower (trimSpace a.state)) (by simp [normalizedComponents])
    have ma5 := ha (goToLower (trimSpace a.postalCode)) (by simp [normalizedComponents])
    have mb1 := hb (goToLower (trimSpace b.line1)) (by simp [normalizedComponents])
    have mb2 := hb (goToLower (trimSpace b.line2)) (by simp [normalizedComponents])
    have mb3 := hb (goToLower (trimSpace b.city)) (by simp [normalizedComponents])
    have mb4 := hb (goToLower (trimSpace b.state)) (by simp [normalizedComponents])
    have mb5 := hb (goToLower (trimSpace b.postalCode)) (by simp [normalizedComponents])
    obtain ⟨e1, hd2⟩ := bar_append_inj _ _ _ _ ma1 mb1 hd
    obtain ⟨e2, hd3⟩ := bar_append_inj _ _ _ _ ma2 mb2 hd2
    obtain ⟨e3, hd4⟩ := bar_append_inj _ _ _ _ ma3 mb3 hd3
    obtain ⟨e4, hd5⟩ := bar_append_inj _ _ _ _ ma4 mb4 hd4
    obtain ⟨e5, e6⟩ := bar_append_inj _ _ _ _ ma5 mb5 hd5
    rw [normalizedComponents, normalizedComponents, stringDataInj e1,
      stringDataInj e2, stringDataInj e3, stringDataInj e4, stringDataInj e5,
      stringDataInj e6]

/-- Counterexample for C7 as stated: the addresses `("a|b", "c", …)` and
`("a", "b|c", …)` normalize to the same canonical string although their
first and second components differ. -/
theorem normalizeAddress_iff_counterexample :
    normalizeAddress ⟨"a|b", "c", "", "", "", ""⟩ =
      normalizeAddress ⟨"a", "b|c", "", "", "", ""⟩ ∧
    normalizedComponents ⟨"a|b", "c", "", "", "", ""⟩ ≠
      normalizedComponents ⟨"a", "b|c", "", "", "", ""⟩ := by
  decide

/-- Witness for C7 (amended) at concrete addresses: `" FOO "` and `"foo"`
match componentwise after lowercase-trim, so both directions apply. -/
theorem normalizeAddress_eq_iff_components_witness :
    normalizeAddress ⟨" FOO ", "", "", "", "", ""⟩ =
      normalizeAddress ⟨"foo", "", "", "", "", ""⟩ ∧
    normalizedComponents ⟨" FOO ", "", "", "", "", ""⟩ =
      normalizedComponents ⟨"foo", "", "", "", "", ""⟩ :=
  ⟨normalizeAddress_eq_iff_components.1 ⟨" FOO ", "", "", "", "", ""⟩
      ⟨"foo", "", "", "", "", ""⟩ (by decide),
   normalizeAddress_eq_iff_components.2 ⟨" FOO ", "", "", "", "", ""⟩
      ⟨"foo", "", "", "", "", ""⟩ (by decide) (by decide)
      (normalizeAddress_eq_iff_components.1 ⟨" FOO ", "", "", "", "", ""⟩
        ⟨"foo", "", "", "", "", ""⟩ (by decide))⟩

/-- C2 (amended): upserting a transaction whose sender or receiver `User`
node does not exist creates no `Transaction` node — but the call succeeds
with no store error: the two leading `MATCH` clauses simply yield zero
rows, so the statement writes nothing and the graph is left exactly as it
was. -/
theorem upsertTransaction_missing_user_noop (tx : Transaction)
    (attrs : List Attribute) (c : ClientState) (herr : c.err = none)
    (hid : tx.id ≠ "") (hs : tx.senderUserID ≠ "") (hr : tx.receiverUserID ≠ "")
    (hmissing : hasKey c.graph.userNodes tx.senderUserID = false ∨
      hasKey c.graph.userNodes tx.receiverUserID = false) :
    ∃ c', Repository.UpsertTransaction tx attrs c = .ok c' ∧
      c'.graph = c.graph := by
  have hexec : upsertTransactionCypherExec
      ⟨tx.id, tx.senderUserID, tx.receiverUserID, tx.amount, tx.currency,
       formatTime tx.timestamp, transactionProperties tx,
       attributeParams attrs, tx.paymentMethodID⟩ c.now c.graph = c.graph := by
    rw [upsertTransactionCypherExec, if_pos]
    intro hboth
    rcases hmissing with hm | hm
    · rw [hm] at hboth
      exact absurd hboth.1 (by simp)
    · rw [hm] at hboth
      exact absurd hboth.2 (by simp)
  rw [Repository.UpsertTransaction, if_neg hid, if_neg (by tauto),
    executeWrite, herr]
  exact ⟨_, rfl, by simp [applyWrite, hexec]⟩

/-- Counterexample for C2 as stated: on an empty (healthy) store, upserting
`TX-1` between the absent users `USR-A`/`USR-B` returns success — not a
store error — and writes nothing (the graph still has no `Transaction`
node). -/
theorem upsertTransaction_missing_user_counterexample :
    Repository.UpsertTransaction
        ⟨"TX-1", "USR-A", "USR-B", 5, "USD", "TRANSFER", "DONE", "WEB", "", "", "",
          ⟨true, "", "", ""⟩, [], ⟨true, "", "", ""⟩, ⟨true, "", "", ""⟩⟩ []
        ⟨⟨[], [], [], [], []⟩, "NOW", none, []⟩ =
      .ok ⟨⟨[], [], [], [], []⟩, "NOW", none,
        [.write (.upsertTransactionQ
          ⟨"TX-1", "USR-A", "USR-B", 5, "USD",
           formatTime ⟨true, "", "", ""⟩,
           transactionProperties ⟨"TX-1", "USR-A", "USR-B", 5, "USD", "TRANSFER",
             "DONE", "WEB", "", "", "", ⟨true, "", "", ""⟩, [], ⟨true, "", "", ""⟩,
             ⟨true, "", "", ""⟩⟩,
           [], ""⟩)]⟩ := rfl

/-- Witness for C2 (amended) at the same concrete inputs. -/
theorem upsertTransaction_missing_user_noop_witness :
    ∃ c', Repository.UpsertTransaction
        ⟨"TX-1", "USR-A", "USR-B", 5, "USD", "TRANSFER", "DONE", "WEB", "", "", "",
          ⟨true, "", "", ""⟩, [], ⟨true, "", "", ""⟩, ⟨true, "", "", ""⟩⟩ []
        ⟨⟨[], [], [], [], []⟩, "NOW", none, []⟩ = .ok c' ∧
      c'.graph = (⟨⟨[], [], [], [], []⟩, "NOW", none, []⟩ : ClientState).graph :=
  upsertTransaction_missing_user_noop _ [] _ rfl (by decide) (by decide)
    (by decide) (Or.inl rfl)

/-- `SET` on a node never changes which keys exist. -/
theorem hasKey_setNodeProps {K : Type} [DecidableEq K] (l : List (K × PropMap))
    (k x : K) (p : PropMap) : hasKey (setNodeProps l k p) x = hasKey l x := by
  induction l with
  | nil => rfl
  | cons kv rest ih =>
    simp only [setNodeProps, hasKey, List.map_cons, List.any_cons] at *
    by_cases hk : kv.1 = k
    · simp [hk, ih]
    · simp [hk, ih]

/-- `MERGE` on a node makes its key present. -/
theorem hasKey_mergeNode_self {K : Type} [DecidableEq K] (l : List (K × PropMap))
    (k : K) : hasKey (mergeNode l k) k = true := by
  rw [mergeNode]
  split
  · assumption
  · simp [hasKey]

/-- `MERGE` on a node keeps every existing key present. -/
theorem hasKey_mergeNode_mono {K : Type} [DecidableEq K] (l : List (K × PropMap))
    (k x : K) (h : hasKey l x = true) : hasKey (mergeNode l k) x = true := by
  rw [mergeNode]
  split
  · exact h
  · simp only [hasKey, List.any_append] at *
    simp [h]

/-- The attribute `FOREACH` of the user upsert leaves the `User` nodes
untouched. -/
theorem userAttrFold_userNodes (uid : String) (attrs : List AttrParam) :
    ∀ g : GraphState, (attrs.foldl (userAttrForeachStep uid) g).userNodes =
      g.userNodes := by
  induction attrs with
  | nil => intro g; rfl
  | cons a rest ih => intro g; rw [List.foldl_cons, ih]; rfl

/-- The payment-method `FOREACH` of the user upsert leaves the `User` nodes
untouched. -/
theorem userPmFold_userNodes (uid : String) (pms : List PmParam) :
    ∀ g : GraphState, (pms.foldl (userPmForeachStep uid) g).userNodes =
      g.userNodes := by
  induction pms with
  | nil => intro g; rfl
  | cons pm rest ih => intro g; rw [List.foldl_cons, ih]; rfl

/-- The `User` node list after a user upsert: the merged node with
overwritten properties. -/
theorem upsertUserExec_userNodes (uid : String) (props : PropMap)
    (attrs : List AttrParam) (pms : List PmParam) (g : GraphState) :
    (upsertUserCypherExec uid props attrs pms g).userNodes =
      setNodeProps (mergeNode g.userNodes uid) uid props := by
  rw [upsertUserCypherExec, userPmFold_userNodes, userAttrFold_userNodes]

/-- A successful user upsert records its own key and keeps all others. -/
theorem upsertUserExec_hasKey (uid : String) (props : PropMap)
    (attrs : List AttrParam) (pms : List PmParam) (g : GraphState) :
    hasKey (upsertUserCypherExec uid props attrs pms g).userNodes uid = true ∧
    (∀ x, hasKey g.userNodes x = true →
      hasKey (upsertUserCypherExec uid props attrs pms g).userNodes x = true) := by
  rw [upsertUserExec_userNodes]
  constructor
  · rw [hasKey_setNodeProps]
    exact hasKey_mergeNode_self _ _
  · intro x hx
    rw [hasKey_setNodeProps]
    exact hasKey_mergeNode_mono _ _ _ hx

/-- The drain loop without any collected cancellation error: the composite
of all accumulated errors, or no error when none occurred. -/
theorem drainErrors_no_cancellation (errs : List GoErr) :
    ∀ acc, (∀ e ∈ errs, isCancellation e = false) →
    drainErrors errs acc =
      if (acc ++ errs).isEmpty then none else some (.taskErr (acc ++ errs)) := by
  induction errs with
  | nil =>
    intro acc _
    rw [List.append_nil]
    simp [drainErrors]
  | cons e rest ih =>
    intro acc h
    have he : isCancellation e = false := h e (List.mem_cons_self _ _)
    rw [drainErrors, if_neg (by simp [he])]
    rw [ih (acc ++ [e]) (fun e' he' => h e' (List.mem_cons_of_mem _ he'))]
    simp

/-- Unfolding one item of the dispatch loop. -/
theorem runItems_cons {α : Type} (f : α → ClientState → ClientState × Option GoErr)
    (x : α) (rest : List α) (c : ClientState) :
    runItems f (x :: rest) c =
      ((runItems f rest (f x c).1).1,
       (match (f x c).2 with | some e => [e] | none => []) ++
         (runItems f rest (f x c).1).2) := by
  rfl

/-- The dispatch phase of `IngestUsers` over a healthy store: the error
channel collects exactly one validation error per item with a missing id
(in order), the client stays healthy, and every item with an id ends up
with its `User` node present. -/
theorem runItems_users_spec (now : GoTime) (users : List UserInput) :
    ∀ c : ClientState, c.err = none →
    (runItems (fun u => serviceUpsertUser u now) users c).1.err = none ∧
    (runItems (fun u => serviceUpsertUser u now) users c).2 =
      (users.filter (fun u => u.id = "")).map
        (fun _ => GoErr.msg "user ID is required") ∧
    (∀ x, hasKey c.graph.userNodes x = true →
      hasKey (runItems (fun u => serviceUpsertUser u now) users c).1.graph.userNodes
        x = true) ∧
    (∀ u ∈ users, u.id ≠ "" →
      hasKey (runItems (fun u => serviceUpsertUser u now) users c).1.graph.userNodes
        u.id = true) := by
  induction users with
  | nil =>
    intro c herr
    exact ⟨herr, rfl, fun x hx => hx, fun u hu => absurd hu (by simp)⟩
  | cons u rest ih =>
    intro c herr
    rw [runItems_cons]
    by_cases hu : u.id = ""
    · have hsvc : serviceUpsertUser u now c = (c, some (.msg "user ID is required")) := by
        rw [serviceUpsertUser, if_pos hu]
      rw [hsvc]
      obtain ⟨ih1, ih2, ih3, ih4⟩ := ih c herr
      refine ⟨ih1, ?_, ih3, ?_⟩
      · simp only [List.filter_cons, hu]
        simp [ih2]
      · intro u' hu' hne
        rcases List.mem_cons.mp hu' with h' | h'
        · subst h'; exact absurd hu hne
        · exact ih4 u' h' hne
    · have hbid : (buildUser u now).id = u.id := rfl
      have hsvc : serviceUpsertUser u now c =
          ({ c with
            graph := applyWrite (.upsertUserQ u.id (userProperties (buildUser u now))
              (attributeParams (buildUser u now).attributes)
              (paymentMethodParams (buildUser u now).paymentMethods)) c.now c.graph,
            calls := c.calls ++ [.write (.upsertUserQ u.id
              (userProperties (buildUser u now))
              (attributeParams (buildUser u now).attributes)
              (paymentMethodParams (buildUser u now).paymentMethods))] }, none) := by
        rw [serviceUpsertUser, if_neg hu, Repository.UpsertUser, hbid, if_neg hu,
          executeWrite, herr]
      rw [hsvc]
      obtain ⟨ih1, ih2, ih3, ih4⟩ := ih { c with
        graph := applyWrite (.upsertUserQ u.id (userProperties (buildUser u now))
          (attributeParams (buildUser u now).attributes)
          (paymentMethodParams (buildUser u now).paymentMethods)) c.now c.graph,
        calls := c.calls ++ [.write (.upsertUserQ u.id
          (userProperties (buildUser u now))
          (attributeParams (buildUser u now).attributes)
          (paymentMethodParams (buildUser u now).paymentMethods))] } herr
      refine ⟨ih1, ?_, ?_, ?_⟩
      · simp only [List.filter_cons, hu]
        simp [ih2]
      · intro x hx
        apply ih3
        simp only [applyWrite]
        exact (upsertUserExec_hasKey _ _ _ _ _).2 x hx
      · intro u' hu' hne
        rcases List.mem_cons.mp hu' with h' | h'
        · subst h'
          apply ih3
          simp only [applyWrite]
          exact (upsertUserExec_hasKey _ _ _ _ _).1
        · exact ih4 u' h' hne

/-! ### Node/edge identity projections

The idempotence and linkage arguments only concern which node keys and
which edge identities exist; these projections extract them. -/

/-- The keys of a keyed node list. -/
def keysOf {K : Type} (l : List (K × PropMap)) : List K :=
  l.map (·.1)

/-- The merge identities of an edge list. -/
def edgeIds (edges : List Edge) : List EdgeKey :=
  edges.map Edge.idOf

/-- Total number of nodes of a graph state. -/
def nodeCount (g : GraphState) : Nat :=
  g.userNodes.length + g.txNodes.length + g.attrNodes.length + g.pmNodes.length

/-- Total number of edges of a graph state. -/
def edgeCount (g : GraphState) : Nat :=
  g.edges.length

/-- `hasKey` decides key membership. -/
theorem hasKey_iff_mem {K : Type} [DecidableEq K] (l : List (K × PropMap)) (k : K) :
    hasKey l k = true ↔ k ∈ keysOf l := by
  induction l with
  | nil => simp [hasKey, keysOf]
  | cons kv rest ih =>
    simp only [hasKey, keysOf, List.any_cons, List.map_cons, List.mem_cons] at *
    constructor
    · intro h
      rcases Bool.or_eq_true_iff.mp h with h' | h'
      · exact Or.inl (Eq.symm (of_decide_eq_true h'))
      · exact Or.inr (ih.mp h')
    · intro h
      rcases h with h' | h'
      · exact Bool.or_eq_true_iff.mpr (Or.inl (decide_eq_true h'.symm))
      · exact Bool.or_eq_true_iff.mpr (Or.inr (ih.mpr h'))

/-- `SET` does not change the key projection. -/
theorem keysOf_setNodeProps {K : Type} [DecidableEq K] (l : List (K × PropMap))
    (k : K) (p : PropMap) : keysOf (setNodeProps l k p) = keysOf l := by
  induction l with
  | nil => rfl
  | cons kv rest ih =>
    simp only [setNodeProps, keysOf, List.map_cons] at *
    by_cases hk : kv.1 = k
    · simp [hk, ih]
    · simp [hk, ih]

/-- `MERGE`'s effect on the key projection: append the key when absent. -/
theorem keysOf_mergeNode {K : Type} [DecidableEq K] (l : List (K × PropMap))
    (k : K) : keysOf (mergeNode l k) =
      if k ∈ keysOf l then keysOf l else keysOf l ++ [k] := by
  rw [mergeNode]
  by_cases h : k ∈ keysOf l
  · rw [if_pos ((hasKey_iff_mem l k).mpr h), if_pos h]
  · rw [if_neg (fun hk => h ((hasKey_iff_mem l k).mp hk)), if_neg h]
    simp [keysOf]

/-- The edge-existence test of `mergeEdge` decides identity membership. -/
theorem anyEdge_iff_mem (edges : List Edge) (k : EdgeKey) :
    (edges.any (fun e => e.idOf = k)) = true ↔ k ∈ edgeIds edges := by
  induction edges with
  | nil => simp [edgeIds]
  | cons e rest ih =>
    simp only [List.any_cons, edgeIds, List.map_cons, List.mem_cons] at *
    constructor
    · intro h
      rcases Bool.or_eq_true_iff.mp h with h' | h'
      · exact Or.inl (Eq.symm (of_decide_eq_true h'))
      · exact Or.inr (ih.mp h')
    · intro h
      rcases h with h' | h'
      · exact Bool.or_eq_true_iff.mpr (Or.inl (decide_eq_true h'.symm))
      · exact Bool.or_eq_true_iff.mpr (Or.inr (ih.mpr h'))

/-- A property refresh keeps an edge's identity. -/
theorem edgeIds_map_update (edges : List Edge) (k : EdgeKey) (ps : PropMap) :
    edgeIds (edges.map (fun e =>
      if e.idOf = k then { e with props := mergeProps e.props ps } else e)) =
      edgeIds edges := by
  induction edges with
  | nil => rfl
  | cons e rest ih =>
    simp only [edgeIds, List.map_cons] at *
    have hhead : (if e.idOf = k then { e with props := mergeProps e.props ps }
        else e).idOf = e.idOf := by
      split
      · rfl
      · rfl
    rw [hhead, ih]

/-- `MERGE`'s effect on the identity projection: append the identity when
absent, keep the list untouched otherwise. -/
theorem edgeIds_mergeEdge (edges : List Edge) (k : EdgeKey) (ps : PropMap) :
    edgeIds (mergeEdge edges k ps) =
      if k ∈ edgeIds edges then edgeIds edges else edgeIds edges ++ [k] := by
  rw [mergeEdge]
  by_cases h : k ∈ edgeIds edges
  · rw [if_pos ((anyEdge_iff_mem edges k).mpr h), if_pos h]
    exact edgeIds_map_update edges k ps
  · rw [if_neg (fun hk => h ((anyEdge_iff_mem edges k).mp hk)), if_neg h]
    simp only [edgeIds, List.map_append, List.map_cons, List.map_nil]
    rfl

/-- Find-or-append on a key list: the projection of `MERGE`. -/
def insertKey {α : Type} [DecidableEq α] (l : List α) (k : α) : List α :=
  if k ∈ l then l else l ++ [k]

/-- Iterated `insertKey`. -/
def insertKeys {α : Type} [DecidableEq α] (l ks : List α) : List α :=
  ks.foldl insertKey l

theorem mem_insertKey_self {α : Type} [DecidableEq α] (l : List α) (k : α) :
    k ∈ insertKey l k := by
  rw [insertKey]
  split
  · assumption
  · simp

theorem mem_insertKey_mono {α : Type} [DecidableEq α] (l : List α) (k x : α)
    (h : x ∈ l) : x ∈ insertKey l k := by
  rw [insertKey]
  split
  · exact h
  · simp [h]

theorem insertKey_of_mem {α : Type} [DecidableEq α] {l : List α} {k : α}
    (h : k ∈ l) : insertKey l k = l := if_pos h

theorem mem_insertKey_cases {α : Type} [DecidableEq α] {l : List α} {k x : α}
    (h : x ∈ insertKey l k) : x ∈ l ∨ x = k := by
  rw [insertKey] at h
  split at h
  · exact Or.inl h
  · rcases List.mem_append.mp h with h' | h'
    · exact Or.inl h'
    · exact Or.inr (by simpa using h')

theorem mem_insertKeys_mono {α : Type} [DecidableEq α] (ks : List α) :
    ∀ (l : List α) (x : α), x ∈ l → x ∈ insertKeys l ks := by
  induction ks with
  | nil => intro l x h; exact h
  | cons k rest ih =>
    intro l x h
    exact ih _ x (mem_insertKey_mono l k x h)

theorem mem_insertKeys_self {α : Type} [DecidableEq α] (ks : List α) :
    ∀ (l : List α) (x : α), x ∈ ks → x ∈ insertKeys l ks := by
  induction ks with
  | nil => intro l x h; cases h
  | cons k rest ih =>
    intro l x h
    rcases List.mem_cons.mp h with h' | h'
    · subst h'
      exact mem_insertKeys_mono rest _ x (mem_insertKey_self l x)
    · exact ih _ x h'

theorem insertKeys_of_subset {α : Type} [DecidableEq α] (ks : List α) :
    ∀ (l : List α), (∀ k ∈ ks, k ∈ l) → insertKeys l ks = l := by
  induction ks with
  | nil => intro l _; rfl
  | cons k rest ih =>
    intro l h
    rw [insertKeys, List.foldl_cons,
      insertKey_of_mem (h k (List.mem_cons_self _ _))]
    exact ih l (fun k' hk' => h k' (List.mem_cons_of_mem _ hk'))

theorem mem_insertKeys_cases {α : Type} [DecidableEq α] (ks : List α) :
    ∀ (l : List α) (x : α), x ∈ insertKeys l ks → x ∈ l ∨ x ∈ ks := by
  induction ks with
  | nil => intro l x h; exact Or.inl h
  | cons k rest ih =>
    intro l x h
    rcases ih _ x h with h' | h'
    · rcases mem_insertKey_cases h' with h'' | h''
      · exact Or.inl h''
      · exact Or.inr (by simp [h''])
    · exact Or.inr (List.mem_cons_of_mem _ h')

theorem insertKeys_append {α : Type} [DecidableEq α] (l ks1 ks2 : List α) :
    insertKeys l (ks1 ++ ks2) = insertKeys (insertKeys l ks1) ks2 := by
  rw [insertKeys, insertKeys, insertKeys, List.foldl_append]

/-- `otherOfId`: the linkage `OPTIONAL MATCH` read off an edge identity. -/
def otherOfId (txId ty v : String) (k : EdgeKey) : Option String :=
  match k.src with
  | .tx other =>
    if k.rel = "HAS_ATTRIBUTE" ∧ k.tgt = .attr ty v ∧ other ≠ txId
    then some other else none
  | _ => none

/-- `othersWithAttribute` depends only on the edge identities. -/
theorem othersWithAttribute_eq_ids (txId ty v : String) (edges : List Edge) :
    othersWithAttribute txId ty v edges =
      dedup ((edgeIds edges).filterMap (otherOfId txId ty v)) := by
  rw [othersWithAttribute, edgeIds]
  congr 1
  induction edges with
  | nil => rfl
  | cons e rest ih =>
    rw [List.map_cons, List.filterMap_cons, List.filterMap_cons]
    have hhead : (match e.src with
        | .tx other =>
          if e.rel = "HAS_ATTRIBUTE" ∧ e.tgt = .attr ty v ∧ other ≠ txId
          then some other else none
        | _ => none) = otherOfId txId ty v e.idOf := rfl
    rw [hhead, ih]

/-- Membership in the deduplicated list is plain membership. -/
theorem mem_dedupAux {α : Type} [DecidableEq α] (l : List α) :
    ∀ (seen : List α) (x : α), x ∈ dedupAux l seen ↔ (x ∈ l ∧ x ∉ seen) := by
  induction l with
  | nil => intro seen x; simp [dedupAux]
  | cons a rest ih =>
    intro seen x
    rw [dedupAux]
    by_cases ha : a ∈ seen
    · rw [if_pos ha, ih]
      constructor
      · intro ⟨h1, h2⟩
        exact ⟨List.mem_cons_of_mem _ h1, h2⟩
      · intro ⟨h1, h2⟩
        rcases List.mem_cons.mp h1 with h' | h'
        · subst h'; exact absurd ha h2
        · exact ⟨h', h2⟩
    · rw [if_neg ha]
      constructor
      · intro h
        rcases List.mem_cons.mp h with h' | h'
        · subst h'
          exact ⟨List.mem_cons_self _ _, ha⟩
        · obtain ⟨h1, h2⟩ := (ih _ x).mp h'
          exact ⟨List.mem_cons_of_mem _ h1, fun hx => h2 (List.mem_cons_of_mem _ hx)⟩
      · intro ⟨h1, h2⟩
        rcases List.mem_cons.mp h1 with h' | h'
        · subst h'; exact List.mem_cons_self _ _
        · by_cases hxa : x = a
          · subst hxa; exact List.mem_cons_self _ _
          · exact List.mem_cons_of_mem _ ((ih _ x).mpr
              ⟨h', fun hx => h2 (by rcases List.mem_cons.mp hx with h'' | h''
                                    · exact absurd h'' hxa
                                    · exact h'')⟩)

theorem mem_dedup {α : Type} [DecidableEq α] (l : List α) (x : α) :
    x ∈ dedup l ↔ x ∈ l := by
  rw [dedup, mem_dedupAux]
  simp

/-- `filterMap` ignores inserted keys it maps to `none`. -/
theorem filterMap_insertKeys_none {α β : Type} [DecidableEq α]
    (f : α → Option β) (ks : List α) :
    ∀ l, (∀ k ∈ ks, f k = none) →
      (insertKeys l ks).filterMap f = l.filterMap f := by
  induction ks with
  | nil => intro l _; rfl
  | cons k rest ih =>
    intro l h
    rw [insertKeys, List.foldl_cons]
    have step : (insertKey l k).filterMap f = l.filterMap f := by
      rw [insertKey]
      split
      · rfl
      · rw [List.filterMap_append]
        simp [h k (List.mem_cons_self _ _)]
    rw [show List.foldl insertKey (insertKey l k) rest =
        insertKeys (insertKey l k) rest from rfl,
      ih _ (fun k' hk' => h k' (List.mem_cons_of_mem _ hk')), step]

/-- The linkage candidates are unchanged by merges whose identities the
linkage `MATCH` ignores. -/
theorem othersWithAttribute_stable (txId ty v : String)
    (edges1 edges2 : List Edge) (ks : List EdgeKey)
    (hids : edgeIds edges2 = insertKeys (edgeIds edges1) ks)
    (hnone : ∀ k ∈ ks, otherOfId txId ty v k = none) :
    othersWithAttribute txId ty v edges2 = othersWithAttribute txId ty v edges1 := by
  rw [othersWithAttribute_eq_ids, othersWithAttribute_eq_ids, hids,
    filterMap_insertKeys_none _ _ _ hnone]

/-- Identities whose source is a `User` node, or the upserted transaction
itself, never produce a linkage candidate. -/
theorem otherOfId_none_of_src (txId ty v : String) (k : EdgeKey)
    (h : (∃ u, k.src = .user u) ∨ k.src = .tx txId) :
    otherOfId txId ty v k = none := by
  rcases h with ⟨u, hu⟩ | ht
  · rw [otherOfId, hu]
  · rw [otherOfId, ht]
    simp

/-- `MERGE` on a node, key-projection form. -/
theorem keysOf_mergeNode' {K : Type} [DecidableEq K] (l : List (K × PropMap))
    (k : K) : keysOf (mergeNode l k) = insertKey (keysOf l) k :=
  keysOf_mergeNode l k

/-- `MERGE` on an edge, identity-projection form. -/
theorem edgeIds_mergeEdge' (edges : List Edge) (k : EdgeKey) (ps : PropMap) :
    edgeIds (mergeEdge edges k ps) = insertKey (edgeIds edges) k :=
  edgeIds_mergeEdge edges k ps

/-- The edge identity of a user's attribute-possession edge. -/
def userAttrEdgeKey (uid : String) (a : AttrParam) : EdgeKey :=
  ⟨.user uid, "HAS_ATTRIBUTE", [], .attr a.type a.value⟩

/-- The edge identity of a user's payment-method-usage edge. -/
def userPmEdgeKey (uid : String) (pm : PmParam) : EdgeKey :=
  ⟨.user uid, "USES_PAYMENT_METHOD", [], .pm pm.id⟩

/-- The node key of an attribute parameter. -/
def attrNodeKeyOf (a : AttrParam) : String × String :=
  (a.type, a.value)

/-- Projections of the user upsert's attribute `FOREACH`. -/
theorem userAttrFold_proj (uid : String) (attrs : List AttrParam) :
    ∀ g : GraphState,
      (attrs.foldl (userAttrForeachStep uid) g).userNodes = g.userNodes ∧
      (attrs.foldl (userAttrForeachStep uid) g).txNodes = g.txNodes ∧
      (attrs.foldl (userAttrForeachStep uid) g).pmNodes = g.pmNodes ∧
      keysOf (attrs.foldl (userAttrForeachStep uid) g).attrNodes =
        insertKeys (keysOf g.attrNodes) (attrs.map attrNodeKeyOf) ∧
      edgeIds (attrs.foldl (userAttrForeachStep uid) g).edges =
        insertKeys (edgeIds g.edges) (attrs.map (userAttrEdgeKey uid)) := by
  induction attrs with
  | nil => intro g; exact ⟨rfl, rfl, rfl, rfl, rfl⟩
  | cons a rest ih =>
    intro g
    rw [List.foldl_cons]
    obtain ⟨i1, i2, i3, i4, i5⟩ := ih (userAttrForeachStep uid g a)
    refine ⟨i1, i2, i3, ?_, ?_⟩
    · rw [i4]
      have : keysOf (userAttrForeachStep uid g a).attrNodes =
          insertKey (keysOf g.attrNodes) (attrNodeKeyOf a) := by
        rw [userAttrForeachStep]
        rw [show ({ g with
            attrNodes := setNodeProps (mergeNode g.attrNodes (a.type, a.value))
              (a.type, a.value) [("rawValue", .str a.rawValue)],
            edges := mergeEdge g.edges
              ⟨.user uid, "HAS_ATTRIBUTE", [], .attr a.type a.value⟩
              [("confidenceScore", .num a.confidence)] } : GraphState).attrNodes =
          setNodeProps (mergeNode g.attrNodes (a.type, a.value))
            (a.type, a.value) [("rawValue", .str a.rawValue)] from rfl]
        rw [keysOf_setNodeProps, keysOf_mergeNode']
        rfl
      rw [this]
      rfl
    · rw [i5]
      have : edgeIds (userAttrForeachStep uid g a).edges =
          insertKey (edgeIds g.edges) (userAttrEdgeKey uid a) := by
        rw [userAttrForeachStep]
        exact edgeIds_mergeEdge' _ _ _
      rw [this]
      rfl

/-- Projections of the user upsert's payment-method `FOREACH`. -/
theorem userPmFold_proj (uid : String) (pms : List PmParam) :
    ∀ g : GraphState,
      (pms.foldl (userPmForeachStep uid) g).userNodes = g.userNodes ∧
      (pms.foldl (userPmForeachStep uid) g).txNodes = g.txNodes ∧
      (pms.foldl (userPmForeachStep uid) g).attrNodes = g.attrNodes ∧
      keysOf (pms.foldl (userPmForeachStep uid) g).pmNodes =
        insertKeys (keysOf g.pmNodes) (pms.map (·.id)) ∧
      edgeIds (pms.foldl (userPmForeachStep uid) g).edges =
        insertKeys (edgeIds g.edges) (pms.map (userPmEdgeKey uid)) := by
  induction pms with
  | nil => intro g; exact ⟨rfl, rfl, rfl, rfl, rfl⟩
  | cons pm rest ih =>
    intro g
    rw [List.foldl_cons]
    obtain ⟨i1, i2, i3, i4, i5⟩ := ih (userPmForeachStep uid g pm)
    refine ⟨i1, i2, i3, ?_, ?_⟩
    · rw [i4]
      have : keysOf (userPmForeachStep uid g pm).pmNodes =
          insertKey (keysOf g.pmNodes) pm.id := by
        rw [userPmForeachStep]
        rw [show ({ g with
            pmNodes := setNodeProps (mergeNode g.pmNodes pm.id) pm.id pm.props,
            edges := mergeEdge g.edges
              ⟨.user uid, "USES_PAYMENT_METHOD", [], .pm pm.id⟩
              [("firstUsedAt", .str pm.firstUsedAt),
               ("lastUsedAt", .str pm.lastUsedAt)] } : GraphState).pmNodes =
          setNodeProps (mergeNode g.pmNodes pm.id) pm.id pm.props from rfl]
        rw [keysOf_setNodeProps, keysOf_mergeNode']
      rw [this]
      rfl
    · rw [i5]
      have : edgeIds (userPmForeachStep uid g pm).edges =
          insertKey (edgeIds g.edges) (userPmEdgeKey uid pm) := by
        rw [userPmForeachStep]
        exact edgeIds_mergeEdge' _ _ _
      rw [this]
      rfl

/-- Projections of the whole user upsert statement. -/
theorem userExec_proj (uid : String) (props : PropMap) (attrs : List AttrParam)
    (pms : List PmParam) (g : GraphState) :
    keysOf (upsertUserCypherExec uid props attrs pms g).userNodes =
      insertKey (keysOf g.userNodes) uid ∧
    (upsertUserCypherExec uid props attrs pms g).txNodes = g.txNodes ∧
    keysOf (upsertUserCypherExec uid props attrs pms g).attrNodes =
      insertKeys (keysOf g.attrNodes) (attrs.map attrNodeKeyOf) ∧
    keysOf (upsertUserCypherExec uid props attrs pms g).pmNodes =
      insertKeys (keysOf g.pmNodes) (pms.map (·.id)) ∧
    edgeIds (upsertUserCypherExec uid props attrs pms g).edges =
      insertKeys (edgeIds g.edges)
        (attrs.map (userAttrEdgeKey uid) ++ pms.map (userPmEdgeKey uid)) := by
  rw [upsertUserCypherExec]
  obtain ⟨a1, a2, a3, a4, a5⟩ := userAttrFold_proj uid attrs
    { g with userNodes := setNodeProps (mergeNode g.userNodes uid) uid props }
  obtain ⟨p1, p2, p3, p4, p5⟩ := userPmFold_proj uid pms
    (attrs.foldl (userAttrForeachStep uid)
      { g with userNodes := setNodeProps (mergeNode g.userNodes uid) uid props })
  refine ⟨?_, ?_, ?_, ?_, ?_⟩
  · rw [p1, a1]
    show keysOf (setNodeProps (mergeNode g.userNodes uid) uid props) =
      insertKey (keysOf g.userNodes) uid
    rw [keysOf_setNodeProps, keysOf_mergeNode']
  · rw [p2, a2]
  · rw [p3, a4]
  · rw [p4, a3]
  · rw [p5, a5, insertKeys_append]

/-- The edge identity of a transaction's attribute-possession edge. -/
def txAttrEdgeKey (txId : String) (a : AttrParam) : EdgeKey :=
  ⟨.tx txId, "HAS_ATTRIBUTE", [], .attr a.type a.value⟩

/-- The edge identity of a transaction-linkage edge. -/
def linkEdgeKey (txId : String) (a : AttrParam) (other : String) : EdgeKey :=
  ⟨.tx txId, "LINKED_TO",
   [("attributeHash", a.value), ("linkType", a.type)], .tx other⟩

/-- The identities of the participation and transfer edges. -/
def txMainEdgeKeys (p : TxParams) : List EdgeKey :=
  [⟨.user p.senderId, "PARTICIPATED_IN",
    [("transactionId", p.transactionId), ("role", "SENDER")], .tx p.transactionId⟩,
   ⟨.user p.receiverId, "PARTICIPATED_IN",
    [("transactionId", p.transactionId), ("role", "RECEIVER")], .tx p.transactionId⟩,
   ⟨.user p.senderId, "SENT_TO", [("transactionId", p.transactionId)],
    .user p.receiverId⟩,
   ⟨.user p.receiverId, "RECEIVED_FROM", [("transactionId", p.transactionId)],
    .user p.senderId⟩]

/-- The identities of the linkage edges computed against a given edge
list. -/
def txLinkKeys (p : TxParams) (edges : List Edge) : List EdgeKey :=
  p.attributes.flatMap (fun a =>
    (othersWithAttribute p.transactionId a.type a.value edges).map
      (linkEdgeKey p.transactionId a))

/-- The identity of the payment-method reference edge, when the trailing
clauses see any rows and the `PaymentMethod` node exists. -/
def txPmKeys (p : TxParams) (g : GraphState) : List EdgeKey :=
  if (p.attributes.any (fun a =>
        ¬(othersWithAttribute p.transactionId a.type a.value g.edges).isEmpty)) ∧
      p.paymentMethodId ≠ "" ∧ hasKey g.pmNodes p.paymentMethodId then
    [⟨.tx p.transactionId, "PAYMENT_METHOD_RELATES", [], .pm p.paymentMethodId⟩]
  else []

/-- All edge identities a transaction upsert merges, computed against the
entry state. -/
def txNewKeys (p : TxParams) (g : GraphState) : List EdgeKey :=
  txMainEdgeKeys p ++ p.attributes.map (txAttrEdgeKey p.transactionId) ++
    txLinkKeys p g.edges ++ txPmKeys p g

/-- Projections of the transaction upsert's attribute `FOREACH`. -/
theorem txAttrFold_proj (txId : String) (attrs : List AttrParam) :
    ∀ g : GraphState,
      (attrs.foldl (txAttrForeachStep txId) g).userNodes = g.userNodes ∧
      (attrs.foldl (txAttrForeachStep txId) g).txNodes = g.txNodes ∧
      (attrs.foldl (txAttrForeachStep txId) g).pmNodes = g.pmNodes ∧
      keysOf (attrs.foldl (txAttrForeachStep txId) g).attrNodes =
        insertKeys (keysOf g.attrNodes) (attrs.map attrNodeKeyOf) ∧
      edgeIds (attrs.foldl (txAttrForeachStep txId) g).edges =
        insertKeys (edgeIds g.edges) (attrs.map (txAttrEdgeKey txId)) := by
  induction attrs with
  | nil => intro g; exact ⟨rfl, rfl, rfl, rfl, rfl⟩
  | cons a rest ih =>
    intro g
    rw [List.foldl_cons]
    obtain ⟨i1, i2, i3, i4, i5⟩ := ih (txAttrForeachStep txId g a)
    refine ⟨i1, i2, i3, ?_, ?_⟩
    · rw [i4]
      have : keysOf (txAttrForeachStep txId g a).attrNodes =
          insertKey (keysOf g.attrNodes) (attrNodeKeyOf a) := by
        rw [txAttrForeachStep]
        rw [show ({ g with
            attrNodes := setNodeProps (mergeNode g.attrNodes (a.type, a.value))
              (a.type, a.value) [("rawValue", .str a.rawValue)],
            edges := mergeEdge g.edges
              ⟨.tx txId, "HAS_ATTRIBUTE", [], .attr a.type a.value⟩
              [("origin", .str "TRANSACTION")] } : GraphState).attrNodes =
          setNodeProps (mergeNode g.attrNodes (a.type, a.value))
            (a.type, a.value) [("rawValue", .str a.rawValue)] from rfl]
        rw [keysOf_setNodeProps, keysOf_mergeNode']
        rfl
      rw [this]
      rfl
    · rw [i5]
      have : edgeIds (txAttrForeachStep txId g a).edges =
          insertKey (edgeIds g.edges) (txAttrEdgeKey txId a) := by
        rw [txAttrForeachStep]
        exact edgeIds_mergeEdge' _ _ _
      rw [this]
      rfl

/-- Projections of the linkage fold over one attribute's candidates. -/
theorem linkMergeFold_proj (txId now : String) (a : AttrParam)
    (os : List String) :
    ∀ g : GraphState,
      (os.foldl (linkMergeStep txId now a) g).userNodes = g.userNodes ∧
      (os.foldl (linkMergeStep txId now a) g).txNodes = g.txNodes ∧
      (os.foldl (linkMergeStep txId now a) g).attrNodes = g.attrNodes ∧
      (os.foldl (linkMergeStep txId now a) g).pmNodes = g.pmNodes ∧
      edgeIds (os.foldl (linkMergeStep txId now a) g).edges =
        insertKeys (edgeIds g.edges) (os.map (linkEdgeKey txId a)) := by
  induction os with
  | nil => intro g; exact ⟨rfl, rfl, rfl, rfl, rfl⟩
  | cons o rest ih =>
    intro g
    rw [List.foldl_cons]
    obtain ⟨i1, i2, i3, i4, i5⟩ := ih (linkMergeStep txId now a g o)
    refine ⟨i1, i2, i3, i4, ?_⟩
    rw [i5]
    have : edgeIds (linkMergeStep txId now a g o).edges =
        insertKey (edgeIds g.edges) (linkEdgeKey txId a o) := by
      rw [linkMergeStep]
      exact edgeIds_mergeEdge' _ _ _
    rw [this]
    rfl

/-- Projections of the linkage step of a single attribute. -/
theorem linkStep_proj (txId now : String) (g : GraphState) (a : AttrParam) :
    (linkStep txId now g a).userNodes = g.userNodes ∧
    (linkStep txId now g a).txNodes = g.txNodes ∧
    (linkStep txId now g a).attrNodes = g.attrNodes ∧
    (linkStep txId now g a).pmNodes = g.pmNodes ∧
    edgeIds (linkStep txId now g a).edges =
      insertKeys (edgeIds g.edges)
        ((othersWithAttribute txId a.type a.value g.edges).map
          (linkEdgeKey txId a)) := by
  rw [linkStep]
  exact linkMergeFold_proj txId now a _ g

/-- Linkage-edge identities never produce linkage candidates themselves. -/
theorem linkEdgeKey_none (txId ty v : String) (a : AttrParam) (ks : List EdgeKey)
    (h : ∀ k ∈ ks, ∃ o, k = linkEdgeKey txId a o) :
    ∀ k ∈ ks, otherOfId txId ty v k = none := by
  intro k hk
  obtain ⟨o, ho⟩ := h k hk
  subst ho
  exact otherOfId_none_of_src _ _ _ _ (Or.inr rfl)

/-- Projections of the whole linkage fold: every attribute links to its
candidates as computed against the fold's entry state. -/
theorem linkFold_proj (txId now : String) (attrs : List AttrParam) :
    ∀ g : GraphState,
      (attrs.foldl (linkStep txId now) g).userNodes = g.userNodes ∧
      (attrs.foldl (linkStep txId now) g).txNodes = g.txNodes ∧
      (attrs.foldl (linkStep txId now) g).attrNodes = g.attrNodes ∧
      (attrs.foldl (linkStep txId now) g).pmNodes = g.pmNodes ∧
      (∀ ty v, othersWithAttribute txId ty v
        (attrs.foldl (linkStep txId now) g).edges =
        othersWithAttribute txId ty v g.edges) ∧
      edgeIds (attrs.foldl (linkStep txId now) g).edges =
        insertKeys (edgeIds g.edges) (attrs.flatMap (fun a =>
          (othersWithAttribute txId a.type a.value g.edges).map
            (linkEdgeKey txId a))) := by
  induction attrs with
  | nil => intro g; exact ⟨rfl, rfl, rfl, rfl, fun ty v => rfl, rfl⟩
  | cons a rest ih =>
    intro g
    rw [List.foldl_cons]
    obtain ⟨s1, s2, s3, s4, s5⟩ := linkStep_proj txId now g a
    have hstab : ∀ ty v, othersWithAttribute txId ty v (linkStep txId now g a).edges =
        othersWithAttribute txId ty v g.edges := by
      intro ty v
      refine othersWithAttribute_stable txId ty v g.edges _ _ s5 ?_
      refine linkEdgeKey_none txId ty v a _ ?_
      intro k hk
      obtain ⟨o, _, ho⟩ := List.mem_map.mp hk
      exact ⟨o, ho.symm⟩
    obtain ⟨i1, i2, i3, i4, i5, i6⟩ := ih (linkStep txId now g a)
    refine ⟨by rw [i1, s1], by rw [i2, s2], by rw [i3, s3], by rw [i4, s4],
      ?_, ?_⟩
    · intro ty v
      rw [i5 ty v, hstab ty v]
    · rw [i6, s5]
      have hfun : (fun a' : AttrParam =>
          (othersWithAttribute txId a'.type a'.value (linkStep txId now g a).edges).map
            (linkEdgeKey txId a')) =
          (fun a' : AttrParam =>
          (othersWithAttribute txId a'.type a'.value g.edges).map
            (linkEdgeKey txId a')) := by
        funext a'
        rw [hstab a'.type a'.value]
      rw [hfun, List.flatMap_cons, insertKeys_append]

/-- Projections of the leading transaction-upsert clauses. -/
theorem txStage1_proj (p : TxParams) (g : GraphState) :
    (txStage1 p g).userNodes = g.userNodes ∧
    (txStage1 p g).attrNodes = g.attrNodes ∧
    (txStage1 p g).pmNodes = g.pmNodes ∧
    keysOf (txStage1 p g).txNodes = insertKey (keysOf g.txNodes) p.transactionId ∧
    edgeIds (txStage1 p g).edges =
      insertKeys (edgeIds g.edges) (txMainEdgeKeys p) := by
  refine ⟨rfl, rfl, rfl, ?_, ?_⟩
  · show keysOf (setNodeProps (mergeNode g.txNodes p.transactionId)
      p.transactionId p.props) = _
    rw [keysOf_setNodeProps, keysOf_mergeNode']
  · rw [txStage1]
    simp only [edgeIds_mergeEdge']
    rfl

/-- Every participation/transfer edge identity starts at a `User` node. -/
theorem txMainEdgeKeys_src (p : TxParams) :
    ∀ k ∈ txMainEdgeKeys p, ∃ u, k.src = NodeRef.user u := by
  intro k hk
  simp only [txMainEdgeKeys, List.mem_cons, List.not_mem_nil, or_false] at hk
  rcases hk with h | h | h | h
  · exact ⟨p.senderId, by rw [h]⟩
  · exact ⟨p.receiverId, by rw [h]⟩
  · exact ⟨p.senderId, by rw [h]⟩
  · exact ⟨p.receiverId, by rw [h]⟩

/-- Projections of the linkage-and-payment-method tail. -/
theorem txLinkAndPm_proj (p : TxParams) (now : String) (g6 : GraphState) :
    (txLinkAndPm p now g6).userNodes = g6.userNodes ∧
    (txLinkAndPm p now g6).txNodes = g6.txNodes ∧
    (txLinkAndPm p now g6).attrNodes = g6.attrNodes ∧
    (txLinkAndPm p now g6).pmNodes = g6.pmNodes ∧
    edgeIds (txLinkAndPm p now g6).edges =
      insertKeys (edgeIds g6.edges) (txLinkKeys p g6.edges ++ txPmKeys p g6) := by
  obtain ⟨f1, f2, f3, f4, f5, f6⟩ := linkFold_proj p.transactionId now p.attributes g6
  rw [txLinkAndPm]
  simp only [f4]
  by_cases hcond : (p.attributes.any (fun a =>
      ¬(othersWithAttribute p.transactionId a.type a.value g6.edges).isEmpty)) ∧
      p.paymentMethodId ≠ "" ∧ hasKey g6.pmNodes p.paymentMethodId
  · rw [if_pos hcond]
    refine ⟨f1, f2, f3, rfl, ?_⟩
    show edgeIds (mergeEdge (p.attributes.foldl (linkStep p.transactionId now)
        g6).edges ⟨.tx p.transactionId, "PAYMENT_METHOD_RELATES", [],
        .pm p.paymentMethodId⟩ [("role", .str "SENDER")]) =
      insertKeys (edgeIds g6.edges) (txLinkKeys p g6.edges ++ txPmKeys p g6)
    rw [show txPmKeys p g6 = [⟨.tx p.transactionId, "PAYMENT_METHOD_RELATES", [],
        .pm p.paymentMethodId⟩] from by rw [txPmKeys, if_pos hcond]]
    rw [insertKeys_append, edgeIds_mergeEdge', f6]
    rfl
  · rw [if_neg hcond]
    refine ⟨f1, f2, f3, f4, ?_⟩
    rw [show txPmKeys p g6 = [] from by rw [txPmKeys, if_neg hcond],
      List.append_nil, f6]
    rfl

/-- Attribute-possession identities of the upserted transaction never
produce linkage candidates (the candidate `MATCH` excludes the transaction
itself). -/
theorem txAttrKeys_none (txId ty v : String) (attrs : List AttrParam) :
    ∀ k ∈ attrs.map (txAttrEdgeKey txId), otherOfId txId ty v k = none := by
  intro k hk
  obtain ⟨a, _, ha⟩ := List.mem_map.mp hk
  subst ha
  exact otherOfId_none_of_src _ _ _ _ (Or.inr rfl)

/-- Participation/transfer identities never produce linkage candidates. -/
theorem txMainKeys_none (p : TxParams) (ty v : String) :
    ∀ k ∈ txMainEdgeKeys p, otherOfId p.transactionId ty v k = none := by
  intro k hk
  obtain ⟨u, hu⟩ := txMainEdgeKeys_src p k hk
  exact otherOfId_none_of_src _ _ _ _ (Or.inl ⟨u, hu⟩)

/-- Projections of the whole transaction upsert statement when both user
nodes exist, relative to the entry state: linkage candidates are those of
the entry graph — in particular linkage edges reach exactly the
transactions already possessing a shared attribute node. -/
theorem txExec_proj (p : TxParams) (now : String) (g : GraphState)
    (hs : hasKey g.userNodes p.senderId = true)
    (hr : hasKey g.userNodes p.receiverId = true) :
    (upsertTransactionCypherExec p now g).userNodes = g.userNodes ∧
    (upsertTransactionCypherExec p now g).pmNodes = g.pmNodes ∧
    keysOf (upsertTransactionCypherExec p now g).txNodes =
      insertKey (keysOf g.txNodes) p.transactionId ∧
    keysOf (upsertTransactionCypherExec p now g).attrNodes =
      insertKeys (keysOf g.attrNodes) (p.attributes.map attrNodeKeyOf) ∧
    edgeIds (upsertTransactionCypherExec p now g).edges =
      insertKeys (edgeIds g.edges) (txNewKeys p g) := by
  rw [upsertTransactionCypherExec, if_neg (by simp [hs, hr])]
  obtain ⟨s1, s2, s3, s4, s5⟩ := txStage1_proj p g
  obtain ⟨a1, a2, a3, a4, a5⟩ := txAttrFold_proj p.transactionId p.attributes
    (txStage1 p g)
  obtain ⟨l1, l2, l3, l4, l5⟩ := txLinkAndPm_proj p now
    (p.attributes.foldl (txAttrForeachStep p.transactionId) (txStage1 p g))
  have hstab : ∀ ty v, othersWithAttribute p.transactionId ty v
      (p.attributes.foldl (txAttrForeachStep p.transactionId)
        (txStage1 p g)).edges =
      othersWithAttribute p.transactionId ty v g.edges := by
    intro ty v
    rw [othersWithAttribute_stable p.transactionId ty v (txStage1 p g).edges _ _
      a5 (txAttrKeys_none p.transactionId ty v p.attributes)]
    exact othersWithAttribute_stable p.transactionId ty v g.edges _ _
      s5 (txMainKeys_none p ty v)
  have hpm : (p.attributes.foldl (txAttrForeachStep p.transactionId)
      (txStage1 p g)).pmNodes = g.pmNodes := by rw [a3, s3]
  refine ⟨?_, ?_, ?_, ?_, ?_⟩
  · rw [l1, a1, s1]
  · rw [l4, hpm]
  · rw [l2, a2, s4]
  · rw [l3, a4, s2]
  · rw [l5]
    have hlk : txLinkKeys p (p.attributes.foldl (txAttrForeachStep p.transactionId)
        (txStage1 p g)).edges = txLinkKeys p g.edges := by
      rw [txLinkKeys, txLinkKeys]
      simp only [hstab]
    have hpmk : txPmKeys p (p.attributes.foldl (txAttrForeachStep p.transactionId)
        (txStage1 p g)) = txPmKeys p g := by
      rw [txPmKeys, txPmKeys]
      simp only [hstab, hpm]
    rw [hlk, hpmk, a5, s5, txNewKeys, insertKeys_append, insertKeys_append,
      insertKeys_append, insertKeys_append]

/-- Counts are determined by the projections. -/
theorem counts_of_proj (g1 g2 : GraphState)
    (hu : keysOf g2.userNodes = keysOf g1.userNodes)
    (ht : keysOf g2.txNodes = keysOf g1.txNodes)
    (ha : keysOf g2.attrNodes = keysOf g1.attrNodes)
    (hp : keysOf g2.pmNodes = keysOf g1.pmNodes)
    (he : edgeIds g2.edges = edgeIds g1.edges) :
    nodeCount g2 = nodeCount g1 ∧ edgeCount g2 = edgeCount g1 := by
  constructor
  · rw [nodeCount, nodeCount,
      show g2.userNodes.length = (keysOf g2.userNodes).length from
        (List.length_map _ _).symm,
      show g2.txNodes.length = (keysOf g2.txNodes).length from
        (List.length_map _ _).symm,
      show g2.attrNodes.length = (keysOf g2.attrNodes).length from
        (List.length_map _ _).symm,
      show g2.pmNodes.length = (keysOf g2.pmNodes).length from
        (List.length_map _ _).symm,
      hu, ht, ha, hp]
    simp [keysOf]
  · rw [edgeCount, edgeCount,
      show g2.edges.length = (edgeIds g2.edges).length from
        (List.length_map _ _).symm, he]
    simp [edgeIds]

/-- Re-running the user upsert statement merges only existing keys: all
five projections are unchanged, so no node or edge is created. -/
theorem userExec_idem_proj (uid : String) (props : PropMap)
    (attrs : List AttrParam) (pms : List PmParam) (g : GraphState) :
    nodeCount (upsertUserCypherExec uid props attrs pms
      (upsertUserCypherExec uid props attrs pms g)) =
      nodeCount (upsertUserCypherExec uid props attrs pms g) ∧
    edgeCount (upsertUserCypherExec uid props attrs pms
      (upsertUserCypherExec uid props attrs pms g)) =
      edgeCount (upsertUserCypherExec uid props attrs pms g) := by
  obtain ⟨u1, u2, u3, u4, u5⟩ := userExec_proj uid props attrs pms g
  obtain ⟨v1, v2, v3, v4, v5⟩ := userExec_proj uid props attrs pms
    (upsertUserCypherExec uid props attrs pms g)
  refine counts_of_proj _ _ ?_ ?_ ?_ ?_ ?_
  · rw [v1, u1, insertKey_of_mem (mem_insertKey_self _ _)]
  · rw [v2]
  · rw [v3, u3, insertKeys_of_subset]
    intro k hk
    exact mem_insertKeys_self _ _ _ hk
  · rw [v4, u4, insertKeys_of_subset]
    intro k hk
    exact mem_insertKeys_self _ _ _ hk
  · rw [v5, u5, insertKeys_of_subset]
    intro k hk
    exact mem_insertKeys_self _ _ _ hk

/-- No merged transaction-upsert identity is ever a linkage candidate. -/
theorem txNewKeys_none (p : TxParams) (g : GraphState) (ty v : String) :
    ∀ k ∈ txNewKeys p g, otherOfId p.transactionId ty v k = none := by
  intro k hk
  rw [txNewKeys] at hk
  rcases List.mem_append.mp hk with hk' | hk'
  · rcases List.mem_append.mp hk' with hk'' | hk''
    · rcases List.mem_append.mp hk'' with hk3 | hk3
      · exact txMainKeys_none p ty v k hk3
      · exact txAttrKeys_none p.transactionId ty v p.attributes k hk3
    · rw [txLinkKeys] at hk''
      obtain ⟨a, _, ha⟩ := List.mem_flatMap.mp hk''
      obtain ⟨o, _, ho⟩ := List.mem_map.mp ha
      rw [← ho]
      exact otherOfId_none_of_src _ _ _ _ (Or.inr rfl)
  · rw [txPmKeys] at hk'
    split at hk'
    · rcases List.mem_cons.mp hk' with h' | h'
      · rw [h']
        exact otherOfId_none_of_src _ _ _ _ (Or.inr rfl)
      · cases h'
    · cases hk'

/-- Re-running the transaction upsert statement (both user nodes present)
merges only existing keys: no node or edge is created. -/
theorem txExec_idem_proj (p : TxParams) (now : String) (g : GraphState)
    (hs : hasKey g.userNodes p.senderId = true)
    (hr : hasKey g.userNodes p.receiverId = true) :
    nodeCount (upsertTransactionCypherExec p now
      (upsertTransactionCypherExec p now g)) =
      nodeCount (upsertTransactionCypherExec p now g) ∧
    edgeCount (upsertTransactionCypherExec p now
      (upsertTransactionCypherExec p now g)) =
      edgeCount (upsertTransactionCypherExec p now g) := by
  obtain ⟨u1, u2, u3, u4, u5⟩ := txExec_proj p now g hs hr
  have hs1 : hasKey (upsertTransactionCypherExec p now g).userNodes p.senderId =
      true := by rw [u1]; exact hs
  have hr1 : hasKey (upsertTransactionCypherExec p now g).userNodes p.receiverId =
      true := by rw [u1]; exact hr
  obtain ⟨v1, v2, v3, v4, v5⟩ := txExec_proj p now
    (upsertTransactionCypherExec p now g) hs1 hr1
  have hstab : ∀ ty' v', othersWithAttribute p.transactionId ty' v'
      (upsertTransactionCypherExec p now g).edges =
      othersWithAttribute p.transactionId ty' v' g.edges := by
    intro ty' v'
    exact othersWithAttribute_stable p.transactionId ty' v' g.edges _ _ u5
      (txNewKeys_none p g ty' v')
  have hnews : txNewKeys p (upsertTransactionCypherExec p now g) =
      txNewKeys p g := by
    rw [txNewKeys, txNewKeys]
    have hlk : txLinkKeys p (upsertTransactionCypherExec p now g).edges =
        txLinkKeys p g.edges := by
      rw [txLinkKeys, txLinkKeys]
      simp only [hstab]
    have hpmk : txPmKeys p (upsertTransactionCypherExec p now g) =
        txPmKeys p g := by
      rw [txPmKeys, txPmKeys]
      simp only [hstab, u2]
    rw [hlk, hpmk]
  refine counts_of_proj _ _ ?_ ?_ ?_ ?_ ?_
  · rw [v1, u1]
  · rw [v3, u3, insertKey_of_mem (mem_insertKey_self _ _)]
  · rw [v4, u4, insertKeys_of_subset]
    intro k hk
    exact mem_insertKeys_self _ _ _ hk
  · rw [v2, u2]
  · rw [v5, hnews, u5, insertKeys_of_subset]
    intro k hk
    exact mem_insertKeys_self _ _ _ hk

/-- A successful user upsert through the service: the store runs
`upsertUserCypher` on the built user and everything else is unchanged. -/
theorem serviceUpsertUser_ok (input : UserInput) (now : GoTime) (c : ClientState)
    (hid : input.id ≠ "") (herr : c.err = none) :
    ∃ c', serviceUpsertUser input now c = (c', none) ∧
      c'.graph = upsertUserCypherExec input.id (userProperties (buildUser input now))
        (attributeParams (buildUser input now).attributes)
        (paymentMethodParams (buildUser input now).paymentMethods) c.graph ∧
      c'.now = c.now ∧ c'.err = none := by
  have hbid : (buildUser input now).id = input.id := rfl
  rw [serviceUpsertUser, if_neg hid, Repository.UpsertUser, hbid, if_neg hid,
    executeWrite, herr]
  exact ⟨_, rfl, rfl, rfl, rfl⟩

/-- The parameter map a transaction input turns into. -/
def txParamsOf (input : TransactionInput) (now : GoTime) : TxParams :=
  ⟨(buildTransaction input now).id, (buildTransaction input now).senderUserID,
   (buildTransaction input now).receiverUserID, (buildTransaction input now).amount,
   (buildTransaction input now).currency,
   formatTime (buildTransaction input now).timestamp,
   transactionProperties (buildTransaction input now),
   attributeParams (FromTransaction input),
   (buildTransaction input now).paymentMethodID⟩

/-- A successful transaction upsert through the service: the store runs
`upsertTransactionCypher` on the built parameters. -/
theorem serviceUpsertTransaction_ok (input : TransactionInput) (now : GoTime)
    (c : ClientState) (hid : input.id ≠ "") (hsne : input.senderUserID ≠ "")
    (hrne : input.receiverUserID ≠ "") (herr : c.err = none) :
    ∃ c', serviceUpsertTransaction input now c = (c', none) ∧
      c'.graph = upsertTransactionCypherExec (txParamsOf input now) c.now c.graph ∧
      c'.now = c.now ∧ c'.err = none := by
  have hbid : (buildTransaction input now).id = input.id := rfl
  have hbs : (buildTransaction input now).senderUserID = input.senderUserID := rfl
  have hbr : (buildTransaction input now).receiverUserID = input.receiverUserID := rfl
  rw [serviceUpsertTransaction, if_neg hid, if_neg (by tauto),
    Repository.UpsertTransaction, hbid, if_neg hid, hbs, hbr, if_neg (by tauto),
    executeWrite, herr]
  exact ⟨_, rfl, rfl, rfl, rfl⟩

/-- C3: re-running the same upsert with identical inputs leaves the graph
with exactly the same node count and edge count as running it once — the
statements merge on business keys, so nothing is duplicated; for
transactions this holds whenever the referenced users are present. -/
theorem upsert_idempotent_counts :
    (∀ (input : UserInput) (now : GoTime) (c : ClientState),
      c.err = none → input.id ≠ "" →
      nodeCount ((serviceUpsertUser input now
          (serviceUpsertUser input now c).1).1.graph) =
        nodeCount ((serviceUpsertUser input now c).1.graph) ∧
      edgeCount ((serviceUpsertUser input now
          (serviceUpsertUser input now c).1).1.graph) =
        edgeCount ((serviceUpsertUser input now c).1.graph)) ∧
    (∀ (input : TransactionInput) (now : GoTime) (c : ClientState),
      c.err = none → input.id ≠ "" → input.senderUserID ≠ "" →
      input.receiverUserID ≠ "" →
      hasKey c.graph.userNodes input.senderUserID = true →
      hasKey c.graph.userNodes input.receiverUserID = true →
      nodeCount ((serviceUpsertTransaction input now
          (serviceUpsertTransaction input now c).1).1.graph) =
        nodeCount ((serviceUpsertTransaction input now c).1.graph) ∧
      edgeCount ((serviceUpsertTransaction input now
          (serviceUpsertTransaction input now c).1).1.graph) =
        edgeCount ((serviceUpsertTransaction input now c).1.graph)) := by
  constructor
  · intro input now c herr hid
    obtain ⟨c1, h1eq, h1g, h1now, h1err⟩ := serviceUpsertUser_ok input now c hid herr
    obtain ⟨c2, h2eq, h2g, _, _⟩ := serviceUpsertUser_ok input now c1 hid h1err
    have e1 : (serviceUpsertUser input now c).1 = c1 := by rw [h1eq]
    have e2 : (serviceUpsertUser input now c1).1 = c2 := by rw [h2eq]
    rw [e1, e2, h2g, h1g]
    exact userExec_idem_proj _ _ _ _ _
  · intro input now c herr hid hsne hrne hs hr
    obtain ⟨c1, h1eq, h1g, h1now, h1err⟩ :=
      serviceUpsertTransaction_ok input now c hid hsne hrne herr
    obtain ⟨c2, h2eq, h2g, _, _⟩ :=
      serviceUpsertTransaction_ok input now c1 hid hsne hrne h1err
    have e1 : (serviceUpsertTransaction input now c).1 = c1 := by rw [h1eq]
    have e2 : (serviceUpsertTransaction input now c1).1 = c2 := by rw [h2eq]
    rw [e1, e2, h2g, h1now, h1g]
    exact txExec_idem_proj (txParamsOf input now) c.now c.graph hs hr

/-- Witness for C3: one user and one transaction (between two present
users) re-upserted on a concrete store. -/
theorem upsert_idempotent_counts_witness :
    (nodeCount ((serviceUpsertUser
        ⟨"U1", "", "", "", ⟨"", "", "", "", "", ""⟩, none, "", 0, [], [], none, none⟩
        ⟨false, "2024-01-01", "t", "t"⟩
        (serviceUpsertUser
          ⟨"U1", "", "", "", ⟨"", "", "", "", "", ""⟩, none, "", 0, [], [], none,
            none⟩
          ⟨false, "2024-01-01", "t", "t"⟩
          ⟨⟨[], [], [], [], []⟩, "NOW", none, []⟩).1).1.graph) =
      nodeCount ((serviceUpsertUser
        ⟨"U1", "", "", "", ⟨"", "", "", "", "", ""⟩, none, "", 0, [], [], none, none⟩
        ⟨false, "2024-01-01", "t", "t"⟩
        ⟨⟨[], [], [], [], []⟩, "NOW", none, []⟩).1.graph) ∧
      edgeCount ((serviceUpsertUser
        ⟨"U1", "", "", "", ⟨"", "", "", "", "", ""⟩, none, "", 0, [], [], none, none⟩
        ⟨false, "2024-01-01", "t", "t"⟩
        (serviceUpsertUser
          ⟨"U1", "", "", "", ⟨"", "", "", "", "", ""⟩, none, "", 0, [], [], none,
            none⟩
          ⟨false, "2024-01-01", "t", "t"⟩
          ⟨⟨[], [], [], [], []⟩, "NOW", none, []⟩).1).1.graph) =
      edgeCount ((serviceUpsertUser
        ⟨"U1", "", "", "", ⟨"", "", "", "", "", ""⟩, none, "", 0, [], [], none, none⟩
        ⟨false, "2024-01-01", "t", "t"⟩
        ⟨⟨[], [], [], [], []⟩, "NOW", none, []⟩).1.graph)) ∧
    (nodeCount ((serviceUpsertTransaction
        ⟨"TX-1", "A", "B", 7, "USD", "TRANSFER", "DONE", "WEB", "", "", "",
          ⟨false, "2024-01-02", "t2", "t2"⟩, [], none, none⟩
        ⟨false, "2024-01-02", "t2", "t2"⟩
        (serviceUpsertTransaction
          ⟨"TX-1", "A", "B", 7, "USD", "TRANSFER", "DONE", "WEB", "", "", "",
            ⟨false, "2024-01-02", "t2", "t2"⟩, [], none, none⟩
          ⟨false, "2024-01-02", "t2", "t2"⟩
          ⟨⟨[("A", []), ("B", [])], [], [], [], []⟩, "NOW", none, []⟩).1).1.graph) =
      nodeCount ((serviceUpsertTransaction
        ⟨"TX-1", "A", "B", 7, "USD", "TRANSFER", "DONE", "WEB", "", "", "",
          ⟨false, "2024-01-02", "t2", "t2"⟩, [], none, none⟩
        ⟨false, "2024-01-02", "t2", "t2"⟩
        ⟨⟨[("A", []), ("B", [])], [], [], [], []⟩, "NOW", none, []⟩).1.graph) ∧
      edgeCount ((serviceUpsertTransaction
        ⟨"TX-1", "A", "B", 7, "USD", "TRANSFER", "DONE", "WEB", "", "", "",
          ⟨false, "2024-01-02", "t2", "t2"⟩, [], none, none⟩
        ⟨false, "2024-01-02", "t2", "t2"⟩
        (serviceUpsertTransaction
          ⟨"TX-1", "A", "B", 7, "USD", "TRANSFER", "DONE", "WEB", "", "", "",
            ⟨false, "2024-01-02", "t2", "t2"⟩, [], none, none⟩
          ⟨false, "2024-01-02", "t2", "t2"⟩
          ⟨⟨[("A", []), ("B", [])], [], [], [], []⟩, "NOW", none, []⟩).1).1.graph) =
      edgeCount ((serviceUpsertTransaction
        ⟨"TX-1", "A", "B", 7, "USD", "TRANSFER", "DONE", "WEB", "", "", "",
          ⟨false, "2024-01-02", "t2", "t2"⟩, [], none, none⟩
        ⟨false, "2024-01-02", "t2", "t2"⟩
        ⟨⟨[("A", []), ("B", [])], [], [], [], []⟩, "NOW", none, []⟩).1.graph)) :=
  ⟨upsert_idempotent_counts.1 _ _ _ rfl (by decide),
   upsert_idempotent_counts.2 _ _ _ rfl (by decide) (by decide) (by decide)
     (by decide) (by decide)⟩

/-- The IP attribute parameter of a transaction input (present whenever the
trimmed IP is non-empty). -/
def ipAttrParam (input : TransactionInput) : AttrParam :=
  ⟨AttributeTypeIPAddress, hashValue (trimSpace input.ipAddress),
   trimSpace input.ipAddress, 0.85, 0.85⟩

/-- A non-empty trimmed IP yields the IP attribute parameter. -/
theorem ipAttrParam_mem (input : TransactionInput)
    (h : trimSpace input.ipAddress ≠ "") :
    ipAttrParam input ∈ attributeParams (FromTransaction input) := by
  rw [FromTransaction, if_pos h, attributeParams]
  exact List.mem_map.mpr
    ⟨⟨AttributeTypeIPAddress, hashValue (trimSpace input.ipAddress),
      trimSpace input.ipAddress, 0.85⟩, List.mem_cons_self _ _, rfl⟩

/-- Every merged transaction-upsert identity starts at the upserted
transaction itself or at a `User` node. -/
theorem txNewKeys_src (p : TxParams) (g : GraphState) :
    ∀ k ∈ txNewKeys p g,
      k.src = NodeRef.tx p.transactionId ∨ ∃ u, k.src = NodeRef.user u := by
  intro k hk
  rw [txNewKeys] at hk
  rcases List.mem_append.mp hk with hk' | hk'
  · rcases List.mem_append.mp hk' with hk'' | hk''
    · rcases List.mem_append.mp hk'' with hk3 | hk3
      · exact Or.inr (txMainEdgeKeys_src p k hk3)
      · obtain ⟨a, _, ha⟩ := List.mem_map.mp hk3
        exact Or.inl (by rw [← ha]; rfl)
    · rw [txLinkKeys] at hk''
      obtain ⟨a, _, ha⟩ := List.mem_flatMap.mp hk''
      obtain ⟨o, _, ho⟩ := List.mem_map.mp ha
      exact Or.inl (by rw [← ho]; rfl)
  · rw [txPmKeys] at hk'
    split at hk'
    · rcases List.mem_cons.mp hk' with h' | h'
      · exact Or.inl (by rw [h'])
      · cases h'
    · cases hk'

/-- A linkage candidate possesses the attribute through an edge of its
own: its transaction node already has an outgoing edge in the searched
list. -/
theorem mem_othersWithAttribute_src (txId ty v : String) (edges : List Edge)
    (o : String) (ho : o ∈ othersWithAttribute txId ty v edges) :
    ∃ e ∈ edges, e.src = NodeRef.tx o := by
  rw [othersWithAttribute, mem_dedup] at ho
  obtain ⟨e, he, hsome⟩ := List.mem_filterMap.mp ho
  refine ⟨e, he, ?_⟩
  cases hsrc : e.src with
  | user u => simp only [hsrc] at hsome; cases hsome
  | tx other =>
    simp only [hsrc] at hsome
    split at hsome
    · rw [Option.some.inj hsome]
    · cases hsome
  | attr a b => simp only [hsrc] at hsome; cases hsome
  | pm q => simp only [hsrc] at hsome; cases hsome

/-- A `LINKED_TO` identity merged by a transaction upsert always targets a
transaction that already had an outgoing edge in the entry state. -/
theorem txNewKeys_linked (p : TxParams) (g : GraphState) (k : EdgeKey)
    (hk : k ∈ txNewKeys p g) (hrel : k.rel = "LINKED_TO") :
    ∃ o, k.tgt = NodeRef.tx o ∧ ∃ e ∈ g.edges, e.src = NodeRef.tx o := by
  rw [txNewKeys] at hk
  rcases List.mem_append.mp hk with hk' | hk'
  · rcases List.mem_append.mp hk' with hk'' | hk''
    · rcases List.mem_append.mp hk'' with hk3 | hk3
      · exfalso
        simp only [txMainEdgeKeys, List.mem_cons, List.not_mem_nil,
          or_false] at hk3
        rcases hk3 with h | h | h | h
        · rw [h] at hrel
          exact absurd (show ("PARTICIPATED_IN" : String) = "LINKED_TO"
            from hrel) (by decide)
        · rw [h] at hrel
          exact absurd (show ("PARTICIPATED_IN" : String) = "LINKED_TO"
            from hrel) (by decide)
        · rw [h] at hrel
          exact absurd (show ("SENT_TO" : String) = "LINKED_TO"
            from hrel) (by decide)
        · rw [h] at hrel
          exact absurd (show ("RECEIVED_FROM" : String) = "LINKED_TO"
            from hrel) (by decide)
      · exfalso
        obtain ⟨a, _, ha⟩ := List.mem_map.mp hk3
        rw [← ha] at hrel
        exact absurd (show ("HAS_ATTRIBUTE" : String) = "LINKED_TO"
          from hrel) (by decide)
    · rw [txLinkKeys] at hk''
      obtain ⟨a, _, ha⟩ := List.mem_flatMap.mp hk''
      obtain ⟨o, ho, hko⟩ := List.mem_map.mp ha
      refine ⟨o, ?_, mem_othersWithAttribute_src _ _ _ _ _ ho⟩
      rw [← hko]
      rfl
  · exfalso
    rw [txPmKeys] at hk'
    split at hk'
    · rcases List.mem_cons.mp hk' with h' | h'
      · rw [h'] at hrel
        exact absurd (show ("PAYMENT_METHOD_RELATES" : String) = "LINKED_TO"
          from hrel) (by decide)
      · cases h'
    · cases hk'

/-- The attribute-possession identity of another transaction is a linkage
candidate for a distinct transaction. -/
theorem otherOfId_attrKey (txId txId' : String) (a : AttrParam)
    (hne : txId ≠ txId') :
    otherOfId txId' a.type a.value (txAttrEdgeKey txId a) = some txId := by
  rw [txAttrEdgeKey, otherOfId]
  simp [hne]

/-- A read on a non-failing client succeeds and appends the call. -/
theorem executeReadMark_ok (q : ReadQuery) (c : ClientState)
    (herr : c.err = none) :
    executeReadMark q c = .ok { c with calls := c.calls ++ [.read q] } := by
  rw [executeReadMark, herr]

/-- A transaction-relationship fetch on a non-failing client succeeds and
reports the participant and linked-transaction records of the current
graph. -/
theorem fetchTransactionRelationships_ok (txId : String) (c : ClientState)
    (hid : txId ≠ "") (herr : c.err = none) :
    ∃ c', Repository.FetchTransactionRelationships txId c =
      .ok (⟨txId, transactionUserRecords txId c.graph,
        transactionLinkedRecords txId c.graph⟩, c') := by
  rw [Repository.FetchTransactionRelationships, if_neg hid]
  have h1 := executeReadMark_ok (.transactionUsersQ txId) c herr
  have h2 := executeReadMark_ok (.transactionLinkedQ txId)
    { c with calls := c.calls ++ [.read (.transactionUsersQ txId)] } herr
  rw [h1]
  simp only [h2]
  exact ⟨_, rfl⟩

/-- An outgoing `LINKED_TO` identity with the linkage pattern key yields a
fetched linked-transaction row carrying the pattern's link type. -/
theorem transactionLinkedRecords_of_key (txId other hsh ty : String)
    (g : GraphState)
    (hk : (⟨NodeRef.tx txId, "LINKED_TO",
      [("attributeHash", hsh), ("linkType", ty)], NodeRef.tx other⟩ : EdgeKey) ∈
        edgeIds g.edges) :
    ∃ lt ∈ transactionLinkedRecords txId g,
      lt.transactionId = other ∧ lt.linkType = ty := by
  rw [edgeIds] at hk
  obtain ⟨e, he, hid⟩ := List.mem_map.mp hk
  have hs : e.src = NodeRef.tx txId := congrArg EdgeKey.src hid
  have hr : e.rel = "LINKED_TO" := congrArg EdgeKey.rel hid
  have hkey : e.key = [("attributeHash", hsh), ("linkType", ty)] :=
    congrArg EdgeKey.key hid
  have ht : e.tgt = NodeRef.tx other := congrArg EdgeKey.tgt hid
  refine ⟨⟨other, lookupKey e.key "linkType", lookupKey e.key "attributeHash",
    lookupNum e.props "score", toTimePtrStr (lookupStr e.props "updatedAt")⟩,
    ?_, rfl, ?_⟩
  · rw [transactionLinkedRecords]
    refine List.mem_filterMap.mpr ⟨e, he, ?_⟩
    simp [hs, ht, hr]
  · show lookupKey e.key "linkType" = ty
    rw [hkey]
    rfl

/-- A fetched linked-transaction row comes from an outgoing `LINKED_TO`
edge of the queried transaction. -/
theorem mem_transactionLinkedRecords_key (txId : String) (g : GraphState)
    (lt : LinkedTransaction) (h : lt ∈ transactionLinkedRecords txId g) :
    ∃ e ∈ g.edges, e.src = NodeRef.tx txId ∧ e.rel = "LINKED_TO" ∧
      e.tgt = NodeRef.tx lt.transactionId := by
  rw [transactionLinkedRecords] at h
  obtain ⟨e, he, hsome⟩ := List.mem_filterMap.mp h
  refine ⟨e, he, ?_⟩
  cases hsrce : e.src with
  | user u => simp only [hsrce] at hsome; cases hsome
  | attr a b => simp only [hsrce] at hsome; cases hsome
  | pm q => simp only [hsrce] at hsome; cases hsome
  | tx t =>
    cases htgte : e.tgt with
    | user u => simp only [hsrce, htgte] at hsome; cases hsome
    | attr a b => simp only [hsrce, htgte] at hsome; cases hsome
    | pm q => simp only [hsrce, htgte] at hsome; cases hsome
    | tx other =>
      simp only [hsrce, htgte] at hsome
      split at hsome
      · rename_i hcond
        obtain ⟨ht, hrel⟩ := hcond
        cases hsome
        exact ⟨by rw [ht], hrel, rfl⟩
      · cases hsome

/-- C1 (amended): transaction linkage over a shared normalized IP attribute
is unidirectional.  After upserting two fresh transactions with the same
trimmed IP address (all referenced users present), fetching the
later-ingested transaction's relationships lists the earlier one with link
type `IP`, but fetching the earlier-ingested transaction's relationships
never lists the later one — the `LINKED_TO` edge points only from the new
transaction to the pre-existing ones, and `transactionLinkedCypher` matches
only outgoing edges. -/
theorem transaction_link_unidirectional
    (t1 t2 : TransactionInput) (now1 now2 : GoTime) (c0 : ClientState)
    (h1id : t1.id ≠ "") (h2id : t2.id ≠ "") (hne : t1.id ≠ t2.id)
    (h1s : t1.senderUserID ≠ "") (h1r : t1.receiverUserID ≠ "")
    (h2s : t2.senderUserID ≠ "") (h2r : t2.receiverUserID ≠ "")
    (herr : c0.err = none)
    (hu1s : hasKey c0.graph.userNodes t1.senderUserID = true)
    (hu1r : hasKey c0.graph.userNodes t1.receiverUserID = true)
    (hu2s : hasKey c0.graph.userNodes t2.senderUserID = true)
    (hu2r : hasKey c0.graph.userNodes t2.receiverUserID = true)
    (hfresh1 : ∀ e ∈ c0.graph.edges, e.src ≠ NodeRef.tx t1.id)
    (hfresh2 : ∀ e ∈ c0.graph.edges, e.src ≠ NodeRef.tx t2.id)
    (hip1 : trimSpace t1.ipAddress ≠ "")
    (hsame : trimSpace t1.ipAddress = trimSpace t2.ipAddress) :
    ∃ r2 c2', Repository.FetchTransactionRelationships t2.id
        (serviceUpsertTransaction t2 now2
          (serviceUpsertTransaction t1 now1 c0).1).1 = .ok (r2, c2') ∧
      (∃ lt ∈ r2.linkedTransactions,
        lt.transactionId = t1.id ∧ lt.linkType = "IP") ∧
      ∃ r1 c1', Repository.FetchTransactionRelationships t1.id
          (serviceUpsertTransaction t2 now2
            (serviceUpsertTransaction t1 now1 c0).1).1 = .ok (r1, c1') ∧
        ∀ lt ∈ r1.linkedTransactions, lt.transactionId ≠ t2.id := by
  have hip2 : trimSpace t2.ipAddress ≠ "" := by rw [← hsame]; exact hip1
  obtain ⟨c1, h1eq, h1g, h1now, h1err⟩ :=
    serviceUpsertTransaction_ok t1 now1 c0 h1id h1s h1r herr
  have e1 : (serviceUpsertTransaction t1 now1 c0).1 = c1 := by rw [h1eq]
  obtain ⟨pu1, pp1, pt1, pa1, pe1⟩ :=
    txExec_proj (txParamsOf t1 now1) c0.now c0.graph hu1s hu1r
  have hu2s' : hasKey c1.graph.userNodes t2.senderUserID = true := by
    rw [h1g, pu1]; exact hu2s
  have hu2r' : hasKey c1.graph.userNodes t2.receiverUserID = true := by
    rw [h1g, pu1]; exact hu2r
  obtain ⟨c2, h2eq, h2g, h2now, h2err⟩ :=
    serviceUpsertTransaction_ok t2 now2 c1 h2id h2s h2r h1err
  have e2 : (serviceUpsertTransaction t2 now2 c1).1 = c2 := by rw [h2eq]
  rw [e1, e2]
  obtain ⟨qu, qp, qt, qa, qe⟩ :=
    txExec_proj (txParamsOf t2 now2) c1.now c1.graph hu2s' hu2r'
  have hattr1 : txAttrEdgeKey t1.id (ipAttrParam t1) ∈ edgeIds c1.graph.edges := by
    rw [h1g, pe1]
    apply mem_insertKeys_self
    rw [txNewKeys]
    refine List.mem_append.mpr (Or.inl (List.mem_append.mpr (Or.inl
      (List.mem_append.mpr (Or.inr ?_)))))
    exact List.mem_map.mpr ⟨ipAttrParam t1, ipAttrParam_mem t1 hip1, rfl⟩
  have hipeq : ipAttrParam t1 = ipAttrParam t2 := by
    rw [ipAttrParam, ipAttrParam, hsame]
  have hcand : t1.id ∈ othersWithAttribute t2.id (ipAttrParam t2).type
      (ipAttrParam t2).value c1.graph.edges := by
    rw [othersWithAttribute_eq_ids, mem_dedup]
    refine List.mem_filterMap.mpr ⟨txAttrEdgeKey t1.id (ipAttrParam t1),
      hattr1, ?_⟩
    rw [hipeq]
    exact otherOfId_attrKey t1.id t2.id (ipAttrParam t2) hne
  have hlink : linkEdgeKey t2.id (ipAttrParam t2) t1.id ∈
      edgeIds c2.graph.edges := by
    rw [h2g, qe]
    apply mem_insertKeys_self
    rw [txNewKeys]
    refine List.mem_append.mpr (Or.inl (List.mem_append.mpr (Or.inr ?_)))
    rw [txLinkKeys]
    refine List.mem_flatMap.mpr ⟨ipAttrParam t2, ipAttrParam_mem t2 hip2, ?_⟩
    exact List.mem_map.mpr ⟨t1.id, hcand, rfl⟩
  obtain ⟨c2f, hfet2⟩ := fetchTransactionRelationships_ok t2.id c2 h2id h2err
  obtain ⟨c1f, hfet1⟩ := fetchTransactionRelationships_ok t1.id c2 h1id h2err
  refine ⟨_, _, hfet2, ?_, _, _, hfet1, ?_⟩
  · obtain ⟨lt, hmem, hidq, htyq⟩ := transactionLinkedRecords_of_key t2.id t1.id
      (hashValue (trimSpace t2.ipAddress)) "IP" c2.graph hlink
    exact ⟨lt, hmem, hidq, htyq⟩
  · intro lt hmem heq
    obtain ⟨e, he, hsrc, hrel, htgt⟩ :=
      mem_transactionLinkedRecords_key t1.id c2.graph lt hmem
    have hkmem : e.idOf ∈ edgeIds c2.graph.edges := by
      rw [edgeIds]
      exact List.mem_map.mpr ⟨e, he, rfl⟩
    rw [h2g, qe] at hkmem
    rcases mem_insertKeys_cases _ _ _ hkmem with hin1 | hin2
    · rw [h1g, pe1] at hin1
      rcases mem_insertKeys_cases _ _ _ hin1 with hin0 | hinN1
      · rw [edgeIds] at hin0
        obtain ⟨e0, he0, hide0⟩ := List.mem_map.mp hin0
        exact hfresh1 e0 he0 (by
          rw [show e0.src = e.src from congrArg EdgeKey.src hide0, hsrc])
      · obtain ⟨o, hto, e0, he0, hsrc0⟩ :=
          txNewKeys_linked (txParamsOf t1 now1) c0.graph e.idOf hinN1 hrel
        have hoeq : o = t2.id := by
          have h1 : NodeRef.tx o = NodeRef.tx lt.transactionId :=
            (show e.tgt = NodeRef.tx o from hto).symm.trans htgt
          injection h1 with h2
          exact h2.trans heq
        exact hfresh2 e0 he0 (hsrc0.trans (by rw [hoeq]))
    · rcases txNewKeys_src (txParamsOf t2 now2) c1.graph e.idOf hin2 with
        hsk | ⟨u, hsk⟩
      · have hcon : NodeRef.tx t1.id = NodeRef.tx t2.id :=
          hsrc.symm.trans hsk
        injection hcon with hcon'
        exact hne hcon'
      · have hcon : NodeRef.tx t1.id = NodeRef.user u := hsrc.symm.trans hsk
        cases hcon

set_option maxRecDepth 100000 in
set_option maxHeartbeats 2000000 in
/-- Counterexample to the symmetric reading of the shared-IP linkage claim:
two fresh transactions with the same trimmed IP (`1.2.3.4`), no shared day
bucket and no device or payment-method attributes, upserted in order
`TX-1`, `TX-2` — fetching `TX-1` returns no linked transaction at all,
while fetching `TX-2` returns `TX-1` with link type `IP`. -/
theorem transaction_link_ip_counterexample :
    ((Repository.FetchTransactionRelationships "TX-1"
        (serviceUpsertTransaction
          ⟨"TX-2", "C", "D", 6, "USD", "TRANSFER", "DONE", "WEB", "1.2.3.4",
            "", "", ⟨false, "2024-04-21", "tB", "tB"⟩, [], none, none⟩
          ⟨false, "2024-04-22", "tC", "tC"⟩
          (serviceUpsertTransaction
            ⟨"TX-1", "A", "B", 5, "USD", "TRANSFER", "DONE", "WEB", "1.2.3.4",
              "", "", ⟨false, "2024-04-20", "tA", "tA"⟩, [], none, none⟩
            ⟨false, "2024-04-22", "tC", "tC"⟩
            ⟨⟨[("A", []), ("B", []), ("C", []), ("D", [])], [], [], [], []⟩,
              "NOW", none, []⟩).1).1).toOption.map
      (fun rc => rc.1.linkedTransactions.map
        (fun lt => (lt.transactionId, lt.linkType)))) = some [] ∧
    ((Repository.FetchTransactionRelationships "TX-2"
        (serviceUpsertTransaction
          ⟨"TX-2", "C", "D", 6, "USD", "TRANSFER", "DONE", "WEB", "1.2.3.4",
            "", "", ⟨false, "2024-04-21", "tB", "tB"⟩, [], none, none⟩
          ⟨false, "2024-04-22", "tC", "tC"⟩
          (serviceUpsertTransaction
            ⟨"TX-1", "A", "B", 5, "USD", "TRANSFER", "DONE", "WEB", "1.2.3.4",
              "", "", ⟨false, "2024-04-20", "tA", "tA"⟩, [], none, none⟩
            ⟨false, "2024-04-22", "tC", "tC"⟩
            ⟨⟨[("A", []), ("B", []), ("C", []), ("D", [])], [], [], [], []⟩,
              "NOW", none, []⟩).1).1).toOption.map
      (fun rc => rc.1.linkedTransactions.map
        (fun lt => (lt.transactionId, lt.linkType)))) =
      some [("TX-1", "IP")] := by
  decide

/-- Witness for the amended C1: the same concrete scenario, run through the
general unidirectionality theorem. -/
theorem transaction_link_unidirectional_witness :
    ∃ r2 c2', Repository.FetchTransactionRelationships "TX-2"
        (serviceUpsertTransaction
          ⟨"TX-2", "C", "D", 6, "USD", "TRANSFER", "DONE", "WEB", "1.2.3.4",
            "", "", ⟨false, "2024-04-21", "tB", "tB"⟩, [], none, none⟩
          ⟨false, "2024-04-22", "tC", "tC"⟩
          (serviceUpsertTransaction
            ⟨"TX-1", "A", "B", 5, "USD", "TRANSFER", "DONE", "WEB", "1.2.3.4",
              "", "", ⟨false, "2024-04-20", "tA", "tA"⟩, [], none, none⟩
            ⟨false, "2024-04-22", "tC", "tC"⟩
            ⟨⟨[("A", []), ("B", []), ("C", []), ("D", [])], [], [], [], []⟩,
              "NOW", none, []⟩).1).1 = .ok (r2, c2') ∧
      (∃ lt ∈ r2.linkedTransactions,
        lt.transactionId = "TX-1" ∧ lt.linkType = "IP") ∧
      ∃ r1 c1', Repository.FetchTransactionRelationships "TX-1"
          (serviceUpsertTransaction
            ⟨"TX-2", "C", "D", 6, "USD", "TRANSFER", "DONE", "WEB", "1.2.3.4",
              "", "", ⟨false, "2024-04-21", "tB", "tB"⟩, [], none, none⟩
            ⟨false, "2024-04-22", "tC", "tC"⟩
            (serviceUpsertTransaction
              ⟨"TX-1", "A", "B", 5, "USD", "TRANSFER", "DONE", "WEB", "1.2.3.4",
                "", "", ⟨false, "2024-04-20", "tA", "tA"⟩, [], none, none⟩
              ⟨false, "2024-04-22", "tC", "tC"⟩
              ⟨⟨[("A", []), ("B", []), ("C", []), ("D", [])], [], [], [], []⟩,
                "NOW", none, []⟩).1).1 = .ok (r1, c1') ∧
        ∀ lt ∈ r1.linkedTransactions, lt.transactionId ≠ "TX-2" :=
  transaction_link_unidirectional
    ⟨"TX-1", "A", "B", 5, "USD", "TRANSFER", "DONE", "WEB", "1.2.3.4",
      "", "", ⟨false, "2024-04-20", "tA", "tA"⟩, [], none, none⟩
    ⟨"TX-2", "C", "D", 6, "USD", "TRANSFER", "DONE", "WEB", "1.2.3.4",
      "", "", ⟨false, "2024-04-21", "tB", "tB"⟩, [], none, none⟩
    ⟨false, "2024-04-22", "tC", "tC"⟩ ⟨false, "2024-04-22", "tC", "tC"⟩
    ⟨⟨[("A", []), ("B", []), ("C", []), ("D", [])], [], [], [], []⟩,
      "NOW", none, []⟩
    (by decide) (by decide) (by decide) (by decide) (by decide) (by decide)
    (by decide) rfl (by decide) (by decide) (by decide) (by decide)
    (by decide) (by decide) (by decide) rfl

/-! ## Bulk transaction ingestion: partial failure -/

/-- The validation outcome of one transaction item, the two guard clauses
of `RelationshipService.UpsertTransaction` in order. -/
def txValidationErr (t : TransactionInput) : Option GoErr :=
  if t.id = "" then some (.msg "transaction ID is required")
  else if t.senderUserID = "" ∨ t.receiverUserID = "" then
    some (.msg "sender and receiver user IDs are required")
  else none

/-- The transaction upsert statement never touches `User` nodes. -/
theorem txExec_userNodes (p : TxParams) (now : String) (g : GraphState) :
    (upsertTransactionCypherExec p now g).userNodes = g.userNodes := by
  rw [upsertTransactionCypherExec]
  split
  · rfl
  · rw [(txLinkAndPm_proj p now _).1,
      (txAttrFold_proj p.transactionId p.attributes _).1, (txStage1_proj p g).1]

/-- `Transaction` node keys across the upsert statement: existing keys are
kept, the upserted id appears once both users exist, and any other absent
key stays absent. -/
theorem txExec_txNodes_hasKey (p : TxParams) (now : String) (g : GraphState) :
    (∀ x, hasKey g.txNodes x = true →
      hasKey (upsertTransactionCypherExec p now g).txNodes x = true) ∧
    (∀ x, x ≠ p.transactionId → hasKey g.txNodes x = false →
      hasKey (upsertTransactionCypherExec p now g).txNodes x = false) ∧
    (hasKey g.userNodes p.senderId = true →
      hasKey g.userNodes p.receiverId = true →
      hasKey (upsertTransactionCypherExec p now g).txNodes p.transactionId =
        true) := by
  rw [upsertTransactionCypherExec]
  split
  · rename_i hguard
    exact ⟨fun x hx => hx, fun x _ hx => hx,
      fun hs hr => absurd ⟨hs, hr⟩ hguard⟩
  · have hk : keysOf (txLinkAndPm p now
        (p.attributes.foldl (txAttrForeachStep p.transactionId)
          (txStage1 p g))).txNodes =
        insertKey (keysOf g.txNodes) p.transactionId := by
      rw [(txLinkAndPm_proj p now _).2.1,
        (txAttrFold_proj p.transactionId p.attributes _).2.1]
      exact (txStage1_proj p g).2.2.2.1
    refine ⟨?_, ?_, ?_⟩
    · intro x hx
      rw [hasKey_iff_mem, hk]
      exact mem_insertKey_mono _ _ _ ((hasKey_iff_mem _ _).mp hx)
    · intro x hne hx
      rw [← Bool.not_eq_true]
      intro hmem
      rw [hasKey_iff_mem, hk] at hmem
      rcases mem_insertKey_cases hmem with h | h
      · have := (hasKey_iff_mem _ _).mpr h
        rw [hx] at this
        cases this
      · exact hne h
    · intro _ _
      rw [hasKey_iff_mem, hk]
      exact mem_insertKey_self _ _

/-- The dispatch phase of `IngestTransactions` over a healthy store: the
error channel collects exactly the validation errors, in order — an item
referencing absent users contributes none — the client stays healthy, user
nodes are untouched, and a validated item's `Transaction` node is created
exactly when both its users already exist. -/
theorem runItems_txs_spec (now : GoTime) (txs : List TransactionInput) :
    ∀ c : ClientState, c.err = none →
    (runItems (fun t => serviceUpsertTransaction t now) txs c).1.err = none ∧
    (runItems (fun t => serviceUpsertTransaction t now) txs c).2 =
      txs.filterMap txValidationErr ∧
    (runItems (fun t => serviceUpsertTransaction t now) txs
      c).1.graph.userNodes = c.graph.userNodes ∧
    (∀ x, hasKey c.graph.txNodes x = true →
      hasKey (runItems (fun t => serviceUpsertTransaction t now) txs
        c).1.graph.txNodes x = true) ∧
    (∀ t ∈ txs, txValidationErr t = none →
      hasKey c.graph.userNodes t.senderUserID = true →
      hasKey c.graph.userNodes t.receiverUserID = true →
      hasKey (runItems (fun t => serviceUpsertTransaction t now) txs
        c).1.graph.txNodes t.id = true) ∧
    (∀ x, hasKey c.graph.txNodes x = false →
      (∀ t ∈ txs, t.id = x → txValidationErr t = none →
        ¬(hasKey c.graph.userNodes t.senderUserID = true ∧
          hasKey c.graph.userNodes t.receiverUserID = true)) →
      hasKey (runItems (fun t => serviceUpsertTransaction t now) txs
        c).1.graph.txNodes x = false) := by
  induction txs with
  | nil =>
    intro c herr
    exact ⟨herr, rfl, rfl, fun x hx => hx,
      fun t ht => absurd ht (by simp), fun x hx _ => hx⟩
  | cons t0 rest ih =>
    intro c herr
    rw [runItems_cons]
    by_cases hid : t0.id = ""
    · have hsvc : serviceUpsertTransaction t0 now c =
          (c, some (.msg "transaction ID is required")) := by
        rw [serviceUpsertTransaction, if_pos hid]
      have hv0 : txValidationErr t0 =
          some (.msg "transaction ID is required") := by
        rw [txValidationErr, if_pos hid]
      rw [hsvc]
      obtain ⟨ih1, ih2, ih3, ih4, ih5, ih6⟩ := ih c herr
      refine ⟨ih1, ?_, ih3, ih4, ?_, ?_⟩
      · rw [List.filterMap_cons, hv0]
        simpa using ih2
      · intro t ht hv hus hur
        rcases List.mem_cons.mp ht with h' | h'
        · subst h'
          rw [hv0] at hv
          cases hv
        · exact ih5 t h' hv hus hur
      · intro x hx hall
        exact ih6 x hx (fun t ht => hall t (List.mem_cons_of_mem _ ht))
    · by_cases hpar : t0.senderUserID = "" ∨ t0.receiverUserID = ""
      · have hsvc : serviceUpsertTransaction t0 now c =
            (c, some (.msg "sender and receiver user IDs are required")) := by
          rw [serviceUpsertTransaction, if_neg hid, if_pos hpar]
        have hv0 : txValidationErr t0 =
            some (.msg "sender and receiver user IDs are required") := by
          rw [txValidationErr, if_neg hid, if_pos hpar]
        rw [hsvc]
        obtain ⟨ih1, ih2, ih3, ih4, ih5, ih6⟩ := ih c herr
        refine ⟨ih1, ?_, ih3, ih4, ?_, ?_⟩
        · rw [List.filterMap_cons, hv0]
          simpa using ih2
        · intro t ht hv hus hur
          rcases List.mem_cons.mp ht with h' | h'
          · subst h'
            rw [hv0] at hv
            cases hv
          · exact ih5 t h' hv hus hur
        · intro x hx hall
          exact ih6 x hx (fun t ht => hall t (List.mem_cons_of_mem _ ht))
      · have hs0 : t0.senderUserID ≠ "" := by tauto
        have hr0 : t0.receiverUserID ≠ "" := by tauto
        have hv0 : txValidationErr t0 = none := by
          rw [txValidationErr, if_neg hid, if_neg hpar]
        obtain ⟨c', heq, hg, hnow, herr'⟩ :=
          serviceUpsertTransaction_ok t0 now c hid hs0 hr0 herr
        rw [heq]
        have hUN : c'.graph.userNodes = c.graph.userNodes := by
          rw [hg]
          exact txExec_userNodes _ _ _
        obtain ⟨ih1, ih2, ih3, ih4, ih5, ih6⟩ := ih c' herr'
        refine ⟨ih1, ?_, ih3.trans hUN, ?_, ?_, ?_⟩
        · rw [List.filterMap_cons, hv0]
          simpa using ih2
        · intro x hx
          refine ih4 x ?_
          rw [hg]
          exact (txExec_txNodes_hasKey _ _ _).1 x hx
        · intro t ht hv hus hur
          rcases List.mem_cons.mp ht with h' | h'
          · subst h'
            refine ih4 t.id ?_
            rw [hg]
            exact (txExec_txNodes_hasKey (txParamsOf t now) c.now
              c.graph).2.2 hus hur
          · refine ih5 t h' hv ?_ ?_
            · rw [hUN]; exact hus
            · rw [hUN]; exact hur
        · intro x hx hall
          by_cases hx0 : t0.id = x
          · have hnpres : ¬(hasKey c.graph.userNodes t0.senderUserID = true ∧
                hasKey c.graph.userNodes t0.receiverUserID = true) :=
              hall t0 (List.mem_cons_self _ _) hx0 hv0
            have hgid : c'.graph = c.graph := by
              rw [hg, upsertTransactionCypherExec,
                if_pos (show ¬(hasKey c.graph.userNodes
                      (txParamsOf t0 now).senderId = true ∧
                    hasKey c.graph.userNodes (txParamsOf t0 now).receiverId =
                      true) from hnpres)]
            refine ih6 x ?_ ?_
            · rw [hgid]; exact hx
            · intro t ht h1 h2
              rw [hgid]
              exact hall t (List.mem_cons_of_mem _ ht) h1 h2
          · refine ih6 x ?_ ?_
            · rw [hg]
              exact (txExec_txNodes_hasKey _ _ _).2.1 x (fun h => hx0 h.symm) hx
            · intro t ht h1 h2
              rw [hUN]
              exact hall t (List.mem_cons_of_mem _ ht) h1 h2

/-- C5 (amended): over a healthy, uncancelled store, a bulk ingestion
returns a composite `TaskError` with exactly one entry per item failing
validation — no error at all when none fails.  Every validated user item is
persisted.  A validated transaction item is persisted when both referenced
users already exist; an item referencing a missing user is silently
skipped: it contributes no error entry and no `Transaction` node, so the
original "n − k items persisted" reading fails for transaction batches. -/
theorem bulk_partial_failure (users : List UserInput)
    (txs : List TransactionInput) (now : GoTime) (c : ClientState)
    (herr : c.err = none) :
    (((users.filter (fun u => u.id = "")).length = 0 →
        (IngestUsers users now c).2 = none) ∧
      ((users.filter (fun u => u.id = "")).length ≠ 0 →
        ∃ l, (IngestUsers users now c).2 = some (.taskErr l) ∧
          l.length = (users.filter (fun u => u.id = "")).length) ∧
      (∀ u ∈ users, u.id ≠ "" →
        hasKey (IngestUsers users now c).1.graph.userNodes u.id = true)) ∧
    (((txs.filterMap txValidationErr).length = 0 →
        (IngestTransactions txs now c).2 = none) ∧
      ((txs.filterMap txValidationErr).length ≠ 0 →
        ∃ l, (IngestTransactions txs now c).2 = some (.taskErr l) ∧
          l.length = (txs.filterMap txValidationErr).length) ∧
      (∀ t ∈ txs, txValidationErr t = none →
        hasKey c.graph.userNodes t.senderUserID = true →
        hasKey c.graph.userNodes t.receiverUserID = true →
        hasKey (IngestTransactions txs now c).1.graph.txNodes t.id = true) ∧
      (∀ x, hasKey c.graph.txNodes x = false →
        (∀ t ∈ txs, t.id = x → txValidationErr t = none →
          ¬(hasKey c.graph.userNodes t.senderUserID = true ∧
            hasKey c.graph.userNodes t.receiverUserID = true)) →
        hasKey (IngestTransactions txs now c).1.graph.txNodes x = false)) := by
  constructor
  · obtain ⟨h1, h2, h3, h4⟩ := runItems_users_spec now users c herr
    cases hru : users with
    | nil =>
      refine ⟨fun _ => ?_, fun hk => ?_, fun u hu => absurd hu (by simp)⟩
      · rw [IngestUsers, bulkRun]
        simp
      · exact absurd hk (by simp)
    | cons u0 rest =>
      rw [← hru]
      have hne : users ≠ [] := by rw [hru]; exact List.cons_ne_nil _ _
      have hdrain : (IngestUsers users now c).2 =
          drainErrors (runItems (fun u => serviceUpsertUser u now) users c).2
            [] := by
        rw [IngestUsers, bulkRun_eq _ _ _ hne]
      have hnocancel :
          ∀ e ∈ (runItems (fun u => serviceUpsertUser u now) users c).2,
            isCancellation e = false := by
        intro e he
        rw [h2] at he
        obtain ⟨_, _, hmap⟩ := List.mem_map.mp he
        rw [← hmap]
        rfl
      rw [drainErrors_no_cancellation _ _ hnocancel, h2] at hdrain
      simp only [List.nil_append] at hdrain
      refine ⟨fun hk => ?_, fun hk => ?_, ?_⟩
      · rw [hdrain, if_pos]
        rw [List.isEmpty_iff, List.map_eq_nil_iff]
        exact List.length_eq_zero.mp hk
      · refine ⟨(users.filter (fun u => u.id = "")).map
          (fun _ => GoErr.msg "user ID is required"), ?_, by simp⟩
        rw [hdrain, if_neg]
        rw [List.isEmpty_iff, List.map_eq_nil_iff]
        intro hnil
        exact hk (by rw [hnil]; rfl)
      · intro u hu hne'
        have : (IngestUsers users now c).1 =
            (runItems (fun u => serviceUpsertUser u now) users c).1 := by
          rw [IngestUsers, bulkRun_eq _ _ _ hne]
        rw [this]
        exact h4 u hu hne'
  · obtain ⟨h1, h2, h3, h4, h5, h6⟩ := runItems_txs_spec now txs c herr
    cases hrt : txs with
    | nil =>
      refine ⟨fun _ => ?_, fun hk => ?_, fun t ht => absurd ht (by simp),
        fun x hx _ => ?_⟩
      · rw [IngestTransactions, bulkRun]
        simp
      · exact absurd hk (by simp)
      · rw [IngestTransactions, bulkRun]
        simpa using hx
    | cons t0 rest =>
      rw [← hrt]
      have hne : txs ≠ [] := by rw [hrt]; exact List.cons_ne_nil _ _
      have hstate : (IngestTransactions txs now c).1 =
          (runItems (fun t => serviceUpsertTransaction t now) txs c).1 := by
        rw [IngestTransactions, bulkRun_eq _ _ _ hne]
      have hdrain : (IngestTransactions txs now c).2 =
          drainErrors
            (runItems (fun t => serviceUpsertTransaction t now) txs c).2 [] := by
        rw [IngestTransactions, bulkRun_eq _ _ _ hne]
      have hnocancel :
          ∀ e ∈ (runItems (fun t => serviceUpsertTransaction t now) txs c).2,
            isCancellation e = false := by
        intro e he
        rw [h2] at he
        obtain ⟨t, _, hsome⟩ := List.mem_filterMap.mp he
        rw [txValidationErr] at hsome
        split at hsome
        · cases hsome
          rfl
        · split at hsome
          · cases hsome
            rfl
          · cases hsome
      rw [drainErrors_no_cancellation _ _ hnocancel, h2] at hdrain
      simp only [List.nil_append] at hdrain
      refine ⟨fun hk => ?_, fun hk => ?_, ?_, ?_⟩
      · rw [hdrain, if_pos]
        rw [List.isEmpty_iff]
        exact List.length_eq_zero.mp hk
      · refine ⟨txs.filterMap txValidationErr, ?_, rfl⟩
        rw [hdrain, if_neg]
        rw [List.isEmpty_iff]
        intro hnil
        exact hk (by rw [hnil]; rfl)
      · intro t ht hv hus hur
        rw [hstate]
        exact h5 t ht hv hus hur
      · intro x hx hall
        rw [hstate]
        exact h6 x hx hall

/-- Counterexample to the symmetric batch reading: a single-item
transaction batch whose item passes validation (`TX-1`, sender `A`,
receiver `B`) against a store holding neither user — zero items fail
validation and the bulk call indeed returns no error, yet the item is not
persisted: no `Transaction` node `TX-1` exists afterwards. -/
theorem bulk_partial_failure_counterexample :
    (IngestTransactions
      [⟨"TX-1", "A", "B", 5, "USD", "TRANSFER", "DONE", "WEB", "", "", "",
        ⟨false, "2024-04-20", "tA", "tA"⟩, [], none, none⟩]
      ⟨false, "2024-04-22", "tC", "tC"⟩
      ⟨⟨[], [], [], [], []⟩, "NOW", none, []⟩).2 = none ∧
    hasKey (IngestTransactions
      [⟨"TX-1", "A", "B", 5, "USD", "TRANSFER", "DONE", "WEB", "", "", "",
        ⟨false, "2024-04-20", "tA", "tA"⟩, [], none, none⟩]
      ⟨false, "2024-04-22", "tC", "tC"⟩
      ⟨⟨[], [], [], [], []⟩, "NOW", none, []⟩).1.graph.txNodes "TX-1" =
      false :=
  ⟨rfl, rfl⟩

/-- Witness for the amended C5: a two-user batch with one missing id and a
one-transaction batch whose users are present, on a healthy store. -/
theorem bulk_partial_failure_witness :
    (((([⟨"U1", "", "", "", ⟨"", "", "", "", "", ""⟩, none, "", 0, [], [],
            none, none⟩,
          ⟨"", "", "", "", ⟨"", "", "", "", "", ""⟩, none, "", 0, [], [],
            none, none⟩] : List UserInput).filter
            (fun u => u.id = "")).length = 0 →
        (IngestUsers
          [⟨"U1", "", "", "", ⟨"", "", "", "", "", ""⟩, none, "", 0, [], [],
            none, none⟩,
           ⟨"", "", "", "", ⟨"", "", "", "", "", ""⟩, none, "", 0, [], [],
            none, none⟩]
          ⟨false, "2024-04-22", "tC", "tC"⟩
          ⟨⟨[("A", []), ("B", [])], [], [], [], []⟩, "NOW", none, []⟩).2 =
          none) ∧
      ((([⟨"U1", "", "", "", ⟨"", "", "", "", "", ""⟩, none, "", 0, [], [],
            none, none⟩,
          ⟨"", "", "", "", ⟨"", "", "", "", "", ""⟩, none, "", 0, [], [],
            none, none⟩] : List UserInput).filter
            (fun u => u.id = "")).length ≠ 0 →
        ∃ l, (IngestUsers
          [⟨"U1", "", "", "", ⟨"", "", "", "", "", ""⟩, none, "", 0, [], [],
            none, none⟩,
           ⟨"", "", "", "", ⟨"", "", "", "", "", ""⟩, none, "", 0, [], [],
            none, none⟩]
          ⟨false, "2024-04-22", "tC", "tC"⟩
          ⟨⟨[("A", []), ("B", [])], [], [], [], []⟩, "NOW", none,
            []⟩).2 = some (.taskErr l) ∧
          l.length = (([⟨"U1", "", "", "", ⟨"", "", "", "", "", ""⟩, none,
              "", 0, [], [], none, none⟩,
            ⟨"", "", "", "", ⟨"", "", "", "", "", ""⟩, none, "", 0, [], [],
              none, none⟩] : List UserInput).filter
              (fun u => u.id = "")).length) ∧
      (∀ u ∈ ([⟨"U1", "", "", "", ⟨"", "", "", "", "", ""⟩, none, "", 0, [],
            [], none, none⟩,
          ⟨"", "", "", "", ⟨"", "", "", "", "", ""⟩, none, "", 0, [], [],
            none, none⟩] : List UserInput), u.id ≠ "" →
        hasKey (IngestUsers
          [⟨"U1", "", "", "", ⟨"", "", "", "", "", ""⟩, none, "", 0, [], [],
            none, none⟩,
           ⟨"", "", "", "", ⟨"", "", "", "", "", ""⟩, none, "", 0, [], [],
            none, none⟩]
          ⟨false, "2024-04-22", "tC", "tC"⟩
          ⟨⟨[("A", []), ("B", [])], [], [], [], []⟩, "NOW", none,
            []⟩).1.graph.userNodes u.id = true)) ∧
    (((([⟨"TX-1", "A", "B", 5, "USD", "TRANSFER", "DONE", "WEB", "", "", "",
          ⟨false, "2024-04-20", "tA", "tA"⟩, [], none, none⟩] :
          List TransactionInput).filterMap txValidationErr).length = 0 →
        (IngestTransactions
          [⟨"TX-1", "A", "B", 5, "USD", "TRANSFER", "DONE", "WEB", "", "",
            "", ⟨false, "2024-04-20", "tA", "tA"⟩, [], none, none⟩]
          ⟨false, "2024-04-22", "tC", "tC"⟩
          ⟨⟨[("A", []), ("B", [])], [], [], [], []⟩, "NOW", none, []⟩).2 =
          none) ∧
      ((([⟨"TX-1", "A", "B", 5, "USD", "TRANSFER", "DONE", "WEB", "", "",
            "", ⟨false, "2024-04-20", "tA", "tA"⟩, [], none, none⟩] :
          List TransactionInput).filterMap txValidationErr).length ≠ 0 →
        ∃ l, (IngestTransactions
          [⟨"TX-1", "A", "B", 5, "USD", "TRANSFER", "DONE", "WEB", "", "",
            "", ⟨false, "2024-04-20", "tA", "tA"⟩, [], none, none⟩]
          ⟨false, "2024-04-22", "tC", "tC"⟩
          ⟨⟨[("A", []), ("B", [])], [], [], [], []⟩, "NOW", none,
            []⟩).2 = some (.taskErr l) ∧
          l.length = (([⟨"TX-1", "A", "B", 5, "USD", "TRANSFER", "DONE",
              "WEB", "", "", "", ⟨false, "2024-04-20", "tA", "tA"⟩, [],
              none, none⟩] :
            List TransactionInput).filterMap txValidationErr).length) ∧
      (∀ t ∈ ([⟨"TX-1", "A", "B", 5, "USD", "TRANSFER", "DONE", "WEB", "",
            "", "", ⟨false, "2024-04-20", "tA", "tA"⟩, [], none, none⟩] :
          List TransactionInput), txValidationErr t = none →
        hasKey (⟨⟨[("A", []), ("B", [])], [], [], [], []⟩, "NOW", none,
            []⟩ : ClientState).graph.userNodes t.senderUserID = true →
        hasKey (⟨⟨[("A", []), ("B", [])], [], [], [], []⟩, "NOW", none,
            []⟩ : ClientState).graph.userNodes t.receiverUserID = true →
        hasKey (IngestTransactions
          [⟨"TX-1", "A", "B", 5, "USD", "TRANSFER", "DONE", "WEB", "", "",
            "", ⟨false, "2024-04-20", "tA", "tA"⟩, [], none, none⟩]
          ⟨false, "2024-04-22", "tC", "tC"⟩
          ⟨⟨[("A", []), ("B", [])], [], [], [], []⟩, "NOW", none,
            []⟩).1.graph.txNodes t.id = true) ∧
      (∀ x, hasKey (⟨⟨[("A", []), ("B", [])], [], [], [], []⟩, "NOW", none,
            []⟩ : ClientState).graph.txNodes x = false →
        (∀ t ∈ ([⟨"TX-1", "A", "B", 5, "USD", "TRANSFER", "DONE", "WEB", "",
              "", "", ⟨false, "2024-04-20", "tA", "tA"⟩, [], none, none⟩] :
            List TransactionInput), t.id = x → txValidationErr t = none →
          ¬(hasKey (⟨⟨[("A", []), ("B", [])], [], [], [], []⟩, "NOW", none,
              []⟩ : ClientState).graph.userNodes t.senderUserID = true ∧
            hasKey (⟨⟨[("A", []), ("B", [])], [], [], [], []⟩, "NOW", none,
              []⟩ : ClientState).graph.userNodes t.receiverUserID = true)) →
        hasKey (IngestTransactions
          [⟨"TX-1", "A", "B", 5, "USD", "TRANSFER", "DONE", "WEB", "", "",
            "", ⟨false, "2024-04-20", "tA", "tA"⟩, [], none, none⟩]
          ⟨false, "2024-04-22", "tC", "tC"⟩
          ⟨⟨[("A", []), ("B", [])], [], [], [], []⟩, "NOW", none,
            []⟩).1.graph.txNodes x = false)) :=
  bulk_partial_failure _ _ _ _ rfl

end Fintrace
